import Mathlib

/-!
Blocked linear-layer kernels of `demos/mm_dse/linalg.h`.

A shallow embedding of the three templates of `linalg.h`

* `linear`            (lines 5-81), the directly nested blocked kernel,
* `vmm_unrolled_tile` (lines 83-104), the dense tile product,
* `linear_v2`         (lines 106-207), the staged kernel built on `hls::stream`: its
  assertions (lines 112-115), its three producers (lines 140-181) and its compute stage
  (lines 183-192),

followed by theorems about them.

The finalize loop of `linear_v2` (lines 195-206) declares the arrays `output_chunk` and
`bias_chunk` with an expression as initialiser (lines 196 and 201).  C++ has no such
initialisation of an array, so these two statements have no meaning to embed and no
instantiation of `linear_v2` compiles: `linear_v2_instantiation` records the verdict of
the compiler, and the stages of lines 140-192 are embedded as the statements they are.

Conventions of the embedding.

* The template parameters `in_size`, `out_size`, `BLOCK_SIZE_IN_`, `BLOCK_SIZE_OUT_`
  (`const int`) are natural numbers: sizes and block sizes are not negative.  The loop
  counters stay below the sizes, so no machine arithmetic wraps.
* The scalar type `T` is any type carrying the operations the source uses (`0`, `+`,
  `*`).  Algebraic laws are assumed only by the theorems that need them.
* A C array `T a[n]` is a total map `Nat → T` of which the source touches the indices
  below `n`; a store `a[i] = v` is `Function.update a i v`.  A two dimensional array is
  a map `Nat → Nat → T`.
* An uninitialised local array starts from an arbitrary map that is a parameter of the
  kernel (`temp_sum`, `uninit`, `uninit2`).
* The `#pragma HLS` directives schedule the hardware and do not change the values
  computed; the statements run in program order.
* A kernel returns `Except Fault _`: a failed `static_assert`, a read of an empty
  channel, a loop that is still running when its iteration budget is spent, or a body
  the compiler rejects (`ill_formed`).
* `linear_checked` is `linear` once more, statement for statement, over arrays of a
  fixed length (lists) whose every access is checked: an index outside the array is
  the fault `out_of_bounds`.
-/

namespace Linalg

/-- Ways in which a kernel can fail to deliver a result. -/
inductive Fault where
  | static_assert_failed
  | read_while_empty
  | out_of_fuel
  | out_of_bounds
  | ill_formed
  deriving DecidableEq, Repr

/-- The condition of `static_assert(size % block == 0, ...)` (lines 11-14 and 112-115).
In a C++ constant expression `size % 0` is ill-formed, so a zero block size does not
pass the assertion either. -/
def static_assert_divisible (size block : Nat) : Bool :=
  block != 0 && size % block == 0

/-- The loop `for (int k = 0; k < n; k++) body`, acting on a state: the body runs for
`k = 0, 1, ..., n-1` in this order. -/
def forUpTo {σ : Type} (n : Nat) (body : Nat → σ → σ) (s : σ) : σ :=
  match n with
  | 0 => s
  | k + 1 => body k (forUpTo k body s)

/-- The loop `for (int k = 0; k < n; k++) body` whose body may fail: the first failure
ends the loop. -/
def forUpToM {σ : Type} (n : Nat) (body : Nat → σ → Except Fault σ) (s : σ) :
    Except Fault σ :=
  match n with
  | 0 => Except.ok s
  | k + 1 =>
    match forUpToM k body s with
    | Except.error e => Except.error e
    | Except.ok s1 => body k s1

/-- The loop `for (int i = start; i < hi; i += step) body`.  With `step = 0` the C loop
does not terminate, so the embedding carries an iteration budget `fuel`; the loop fails
with `out_of_fuel` when the budget is spent and the loop condition still holds. -/
def forStep {σ : Type} (fuel i hi step : Nat) (body : Nat → σ → Except Fault σ) (s : σ) :
    Except Fault σ :=
  match fuel with
  | 0 => if i < hi then Except.error Fault.out_of_fuel else Except.ok s
  | f + 1 =>
    if i < hi then
      match body i s with
      | Except.error e => Except.error e
      | Except.ok s1 => forStep f (i + step) hi step body s1
    else Except.ok s

/-! ## `linear` -/

/-- The mutable state of `linear`: the caller's `output` and the local `temp_sum`. -/
structure LinearState (T : Type) where
  output : Nat → T
  temp_sum : Nat → T

variable {T : Type}

/-- `BIAS_WRITE` (lines 43-47): `output[a + b] = bias[a + b]` for `b < BLOCK_SIZE_OUT`. -/
def BIAS_WRITE (BLOCK_SIZE_OUT a : Nat) (bias output : Nat → T) : Nat → T :=
  forUpTo BLOCK_SIZE_OUT (fun b out => Function.update out (a + b) (bias (a + b))) output

/-- `BIAS_BLOCK_OUT` (lines 39-48).  The budget `out_size` covers every positive step
(`forStep_tiles`). -/
def BIAS_BLOCK_OUT (out_size BLOCK_SIZE_OUT : Nat) (bias output : Nat → T) :
    Except Fault (Nat → T) :=
  forStep out_size 0 out_size BLOCK_SIZE_OUT
    (fun a out => Except.ok (BIAS_WRITE BLOCK_SIZE_OUT a bias out)) output

/-- `TEMP_SUM_ZERO_LOOP` (lines 58-61): `temp_sum[k] = 0`. -/
def TEMP_SUM_ZERO_LOOP [Zero T] (BLOCK_SIZE_OUT : Nat) (temp_sum : Nat → T) : Nat → T :=
  forUpTo BLOCK_SIZE_OUT (fun k t => Function.update t k 0) temp_sum

/-- `SUM_INNER` (lines 68-71): `temp_sum[k] += weight[i + k][j + l] * input[j + l]`. -/
def SUM_INNER [Add T] [Mul T] (BLOCK_SIZE_IN i j k : Nat) (input : Nat → T)
    (weight : Nat → Nat → T) (temp_sum : Nat → T) : Nat → T :=
  forUpTo BLOCK_SIZE_IN
    (fun l t => Function.update t k (t k + weight (i + k) (j + l) * input (j + l))) temp_sum

/-- `SUM_OUTER` (lines 65-72). -/
def SUM_OUTER [Add T] [Mul T] (BLOCK_SIZE_IN BLOCK_SIZE_OUT i j : Nat) (input : Nat → T)
    (weight : Nat → Nat → T) (temp_sum : Nat → T) : Nat → T :=
  forUpTo BLOCK_SIZE_OUT (fun k t => SUM_INNER BLOCK_SIZE_IN i j k input weight t) temp_sum

/-- `WRITE_LOOP` (lines 75-78): `output[i + k] += temp_sum[k]`. -/
def WRITE_LOOP [Add T] (BLOCK_SIZE_OUT i : Nat) (temp_sum output : Nat → T) : Nat → T :=
  forUpTo BLOCK_SIZE_OUT (fun k out => Function.update out (i + k) (out (i + k) + temp_sum k))
    output

/-- The body of `BLOCK_IN` (lines 55-78) for output block `i` and input block `j`. -/
def BLOCK_IN_body [Zero T] [Add T] [Mul T] (BLOCK_SIZE_IN BLOCK_SIZE_OUT i j : Nat)
    (input : Nat → T) (weight : Nat → Nat → T) (s : LinearState T) : LinearState T :=
  let t0 := TEMP_SUM_ZERO_LOOP BLOCK_SIZE_OUT s.temp_sum
  let t1 := SUM_OUTER BLOCK_SIZE_IN BLOCK_SIZE_OUT i j input weight t0
  { output := WRITE_LOOP BLOCK_SIZE_OUT i t1 s.output, temp_sum := t1 }

/-- `BLOCK_IN` (lines 53-79). -/
def BLOCK_IN [Zero T] [Add T] [Mul T] (in_size BLOCK_SIZE_IN BLOCK_SIZE_OUT i : Nat)
    (input : Nat → T) (weight : Nat → Nat → T) (s : LinearState T) :
    Except Fault (LinearState T) :=
  forStep in_size 0 in_size BLOCK_SIZE_IN
    (fun j st => Except.ok (BLOCK_IN_body BLOCK_SIZE_IN BLOCK_SIZE_OUT i j input weight st)) s

/-- `BLOCK_OUT` (lines 51-80). -/
def BLOCK_OUT [Zero T] [Add T] [Mul T] (in_size out_size BLOCK_SIZE_IN BLOCK_SIZE_OUT : Nat)
    (input : Nat → T) (weight : Nat → Nat → T) (s : LinearState T) :
    Except Fault (LinearState T) :=
  forStep out_size 0 out_size BLOCK_SIZE_OUT
    (fun i st => BLOCK_IN in_size BLOCK_SIZE_IN BLOCK_SIZE_OUT i input weight st) s

/-- `linear<in_size, out_size, BLOCK_SIZE_IN_, BLOCK_SIZE_OUT_, T>(input, output, weight,
bias)` (lines 5-81).  The result is the content of `output` at return; `temp_sum` is
the content of the uninitialised local of that name. -/
def linear [Zero T] [Add T] [Mul T] (in_size out_size BLOCK_SIZE_IN BLOCK_SIZE_OUT : Nat)
    (input output : Nat → T) (weight : Nat → Nat → T) (bias temp_sum : Nat → T) :
    Except Fault (Nat → T) :=
  if static_assert_divisible in_size BLOCK_SIZE_IN = false then
    Except.error Fault.static_assert_failed
  else if static_assert_divisible out_size BLOCK_SIZE_OUT = false then
    Except.error Fault.static_assert_failed
  else
    match BIAS_BLOCK_OUT out_size BLOCK_SIZE_OUT bias output with
    | Except.error e => Except.error e
    | Except.ok out1 =>
      match BLOCK_OUT in_size out_size BLOCK_SIZE_IN BLOCK_SIZE_OUT input weight
          { output := out1, temp_sum := temp_sum } with
      | Except.error e => Except.error e
      | Except.ok s => Except.ok s.output

/-! ## `vmm_unrolled_tile` -/

/-- The inner loop of `vmm_unrolled_tile` (lines 97-101): `acc = 0` followed by
`acc += weight[i][j] * input[j]` for `j < DIM_IN`. -/
def vmm_row [Zero T] [Add T] [Mul T] (DIM_IN i : Nat) (input : Nat → T)
    (weight : Nat → Nat → T) : T :=
  forUpTo DIM_IN (fun j acc => acc + weight i j * input j) 0

/-- `vmm_unrolled_tile<DIM_IN, DIM_OUT, T>(input, weight, output)` (lines 83-104); the
result is the content of `output` at return. -/
def vmm_unrolled_tile [Zero T] [Add T] [Mul T] (DIM_IN DIM_OUT : Nat) (input : Nat → T)
    (weight : Nat → Nat → T) (output : Nat → T) : Nat → T :=
  forUpTo DIM_OUT (fun i out => Function.update out i (vmm_row DIM_IN i input weight)) output

/-! ## `linear_v2` -/

/-- Modelled from the spec: `hls::stream` (the header `hls_stream.h` is not part of the
repository).  A channel is an ordered first-in first-out queue; `writes` and `reads`
count the pushes and pops it has received.  The source gives the channels no depth, so
the queue is unbounded. -/
structure HlsStream (α : Type) where
  fifo : List α
  writes : Nat
  reads : Nat

namespace HlsStream

/-- A freshly declared channel. -/
def empty {α : Type} : HlsStream α := { fifo := [], writes := 0, reads := 0 }

/-- Modelled from the spec: `write` pushes at the tail. -/
def write {α : Type} (s : HlsStream α) (x : α) : HlsStream α :=
  { fifo := s.fifo ++ [x], writes := s.writes + 1, reads := s.reads }

/-- Modelled from the spec: `read` pops the head; on an empty channel the consumer
blocks, and since no producer runs any more the kernel never returns. -/
def read {α : Type} (s : HlsStream α) : Except Fault (α × HlsStream α) :=
  match s.fifo with
  | [] => Except.error Fault.read_while_empty
  | x :: rest => Except.ok (x, { fifo := rest, writes := s.writes, reads := s.reads + 1 })

end HlsStream

/-- `n_chunks_in` and `n_chunks_out` (lines 137-138): `size / BLOCK_SIZE`. -/
def n_chunks (size BLOCK_SIZE : Nat) : Nat := size / BLOCK_SIZE

/-- The index `c * BLOCK_SIZE + o` of element `o` of tile `c` (lines 146, 165, 178,
199, 204). -/
def tile_index (BLOCK_SIZE c o : Nat) : Nat := c * BLOCK_SIZE + o

/-- Lines 143-147: the local `input_chunk` after it is filled with input tile `i`. -/
def input_chunk (BLOCK_SIZE_IN i : Nat) (input uninit : Nat → T) : Nat → T :=
  forUpTo BLOCK_SIZE_IN (fun j c => Function.update c j (input (i * BLOCK_SIZE_IN + j))) uninit

/-- Lines 140-153: the producer of `input_stream`. -/
def input_stream_producer (n_chunks_in n_chunks_out BLOCK_SIZE_IN : Nat)
    (input uninit : Nat → T) (s : HlsStream (Nat → T)) : HlsStream (Nat → T) :=
  forUpTo n_chunks_in
    (fun i st => forUpTo n_chunks_out
      (fun _ st1 => st1.write (input_chunk BLOCK_SIZE_IN i input uninit)) st) s

/-- Lines 159-167: the local `weight_chunk` after it is filled with sub-block `(i, j)`. -/
def weight_chunk (BLOCK_SIZE_IN BLOCK_SIZE_OUT i j : Nat) (weight uninit2 : Nat → Nat → T) :
    Nat → Nat → T :=
  forUpTo BLOCK_SIZE_OUT
    (fun k c => forUpTo BLOCK_SIZE_IN
      (fun l c1 => Function.update c1 k
        (Function.update (c1 k) l (weight (i * BLOCK_SIZE_OUT + k) (j * BLOCK_SIZE_IN + l)))) c)
    uninit2

/-- Lines 155-170: the producer of `weight_stream`. -/
def weight_stream_producer (n_chunks_in n_chunks_out BLOCK_SIZE_IN BLOCK_SIZE_OUT : Nat)
    (weight uninit2 : Nat → Nat → T) (s : HlsStream (Nat → Nat → T)) :
    HlsStream (Nat → Nat → T) :=
  forUpTo n_chunks_out
    (fun i st => forUpTo n_chunks_in
      (fun j st1 => st1.write (weight_chunk BLOCK_SIZE_IN BLOCK_SIZE_OUT i j weight uninit2)) st)
    s

/-- Lines 174-179: the local `bias_chunk` after it is filled with bias tile `i`. -/
def bias_chunk (BLOCK_SIZE_OUT i : Nat) (bias uninit : Nat → T) : Nat → T :=
  forUpTo BLOCK_SIZE_OUT (fun j c => Function.update c j (bias (i * BLOCK_SIZE_OUT + j))) uninit

/-- Lines 172-181: the producer of `bias_stream`. -/
def bias_stream_producer (n_chunks_out BLOCK_SIZE_OUT : Nat) (bias uninit : Nat → T)
    (s : HlsStream (Nat → T)) : HlsStream (Nat → T) :=
  forUpTo n_chunks_out (fun i st => st.write (bias_chunk BLOCK_SIZE_OUT i bias uninit)) s

/-- The channels and the output buffer of `linear_v2`. -/
structure V2State (T : Type) where
  input_stream : HlsStream (Nat → T)
  weight_stream : HlsStream (Nat → Nat → T)
  bias_stream : HlsStream (Nat → T)
  output_stream_partials : HlsStream (Nat → T)
  output : Nat → T

/-- Lines 187-190: one iteration of the compute stage. -/
def compute_step [Zero T] [Add T] [Mul T] (BLOCK_SIZE_IN BLOCK_SIZE_OUT : Nat)
    (uninit : Nat → T) (s : V2State T) : Except Fault (V2State T) :=
  match s.input_stream.read with
  | Except.error e => Except.error e
  | Except.ok (x, is1) =>
    match s.weight_stream.read with
    | Except.error e => Except.error e
    | Except.ok (w, ws1) =>
      Except.ok { s with
        input_stream := is1
        weight_stream := ws1
        output_stream_partials :=
          s.output_stream_partials.write
            (vmm_unrolled_tile BLOCK_SIZE_IN BLOCK_SIZE_OUT x w uninit) }

/-- Lines 183-192: the compute stage. -/
def compute_stage [Zero T] [Add T] [Mul T]
    (n_chunks_in n_chunks_out BLOCK_SIZE_IN BLOCK_SIZE_OUT : Nat) (uninit : Nat → T)
    (s : V2State T) : Except Fault (V2State T) :=
  forUpToM n_chunks_out
    (fun _ st => forUpToM n_chunks_in
      (fun _ st1 => compute_step BLOCK_SIZE_IN BLOCK_SIZE_OUT uninit st1) st) s

/-- The form of the initialiser in the declaration of a local array. -/
inductive ArrayInitializer where
  | absent
  | braced_list
  | expression
  deriving DecidableEq, Repr

/-- The rule of C++ for the declaration of an array: `T a[n];` and `T a[n] = {...};` are
well-formed, `T a[n] = e;` with an expression `e` is ill-formed, whatever the element
type, the length and the type of `e`. -/
def ArrayInitializer.well_formed : ArrayInitializer → Bool
  | ArrayInitializer.absent => true
  | ArrayInitializer.braced_list => true
  | ArrayInitializer.expression => false

/-- The declarations of local arrays in the body of `linear_v2`, by source line:
`chunk_input_t input_chunk;` (143), `chunk_weight_t weight_chunk;` (159),
`chunk_output_t bias_chunk;` (174), `chunk_output_t output_chunk;` (187),
`chunk_output_t output_chunk = output_stream_partials.read();` (196) and
`chunk_output_t bias_chunk = bias_stream.read();` (201). -/
def linear_v2_array_declarations : List (Nat × ArrayInitializer) :=
  [(143, ArrayInitializer.absent), (159, ArrayInitializer.absent),
   (174, ArrayInitializer.absent), (187, ArrayInitializer.absent),
   (196, ArrayInitializer.expression), (201, ArrayInitializer.expression)]

/-- The verdict of the compiler on the instantiation
`linear_v2<in_size, out_size, BLOCK_SIZE_IN_, BLOCK_SIZE_OUT_, T>`: the assertions of
lines 112-115 must hold and every declaration of the body must be well-formed.  The
element type `T` plays no part. -/
def linear_v2_instantiation (in_size out_size BLOCK_SIZE_IN BLOCK_SIZE_OUT : Nat) :
    Except Fault Unit :=
  if static_assert_divisible in_size BLOCK_SIZE_IN = false then
    Except.error Fault.static_assert_failed
  else if static_assert_divisible out_size BLOCK_SIZE_OUT = false then
    Except.error Fault.static_assert_failed
  else if linear_v2_array_declarations.all (fun d => d.2.well_formed) then
    Except.ok ()
  else Except.error Fault.ill_formed

/-- A vector given by the list of its first elements, zero beyond them. -/
def vec [Zero T] (xs : List T) : Nat → T := fun i => xs.getD i 0

/-- A matrix given by the list of its rows. -/
def mat [Zero T] (rows : List (List T)) : Nat → Nat → T := fun i j => (rows.getD i []).getD j 0

/-- The first `n` elements of a buffer, or the fault. -/
def readback (n : Nat) (r : Except Fault (Nat → T)) : Except Fault (List T) :=
  match r with
  | Except.error e => Except.error e
  | Except.ok out => Except.ok ((List.range n).map out)

/-- The partial sum of one tile row as `linear` forms it in `temp_sum`: starting from `0`,
add `weight[x][j + l] * input[j + l]` for `l = 0, ..., BLOCK_SIZE_IN - 1`. -/
def tile_dot [Zero T] [Add T] [Mul T] (BLOCK_SIZE_IN x j : Nat) (input : Nat → T)
    (weight : Nat → Nat → T) : T :=
  forUpTo BLOCK_SIZE_IN (fun l acc => acc + weight x (j + l) * input (j + l)) 0

/-- The value `linear` leaves in `output[x]`: starting from `start`, add the partial sums of
the input blocks `0, ..., n - 1` in this order. -/
def block_fold [Zero T] [Add T] [Mul T] (n BLOCK_SIZE_IN x : Nat) (input : Nat → T)
    (weight : Nat → Nat → T) (start : T) : T :=
  forUpTo n (fun d acc => acc + tile_dot BLOCK_SIZE_IN x (d * BLOCK_SIZE_IN) input weight) start

/-- The naive scalar algorithm in the words of the specification, for output index `i`:
`acc = bias[i]`, then `acc = acc + weight[i][j] * input[j]` for `j = 0, ..., n - 1` in
increasing order; `naive_scalar n i` is `acc` after `n` steps. -/
def naive_scalar [Add T] [Mul T] (n i : Nat) (input : Nat → T) (weight : Nat → Nat → T)
    (bias : Nat → T) : T :=
  match n with
  | 0 => bias i
  | j + 1 => naive_scalar j i input weight bias + weight i j * input j

/-- The tiles the producer of `input_stream` pushes, in push order: position `p` holds
input tile `p / n_chunks_out`. -/
def input_tiles (n_chunks_in n_chunks_out BLOCK_SIZE_IN : Nat) (input uninit : Nat → T) :
    List (Nat → T) :=
  (List.range (n_chunks_in * n_chunks_out)).map
    (fun p => input_chunk BLOCK_SIZE_IN (p / n_chunks_out) input uninit)

/-- The tiles the producer of `weight_stream` pushes, in push order: position `p` holds
sub-block `(p / n_chunks_in, p % n_chunks_in)`. -/
def weight_tiles (n_chunks_in n_chunks_out BLOCK_SIZE_IN BLOCK_SIZE_OUT : Nat)
    (weight uninit2 : Nat → Nat → T) : List (Nat → Nat → T) :=
  (List.range (n_chunks_out * n_chunks_in)).map
    (fun p => weight_chunk BLOCK_SIZE_IN BLOCK_SIZE_OUT (p / n_chunks_in) (p % n_chunks_in)
      weight uninit2)

/-- The tiles the producer of `bias_stream` pushes, in push order. -/
def bias_tiles (n_chunks_out BLOCK_SIZE_OUT : Nat) (bias uninit : Nat → T) : List (Nat → T) :=
  (List.range n_chunks_out).map (fun i => bias_chunk BLOCK_SIZE_OUT i bias uninit)

/-- The tiles the compute stage pushes to `output_stream_partials`, in push order: the
tile product of the input tile and the weight tile at the same position. -/
def partial_tiles [Zero T] [Add T] [Mul T]
    (n_chunks_in n_chunks_out BLOCK_SIZE_IN BLOCK_SIZE_OUT : Nat)
    (input : Nat → T) (weight : Nat → Nat → T) (uninit : Nat → T) (uninit2 : Nat → Nat → T) :
    List (Nat → T) :=
  List.zipWith (fun x w => vmm_unrolled_tile BLOCK_SIZE_IN BLOCK_SIZE_OUT x w uninit)
    (input_tiles n_chunks_in n_chunks_out BLOCK_SIZE_IN input uninit)
    (weight_tiles n_chunks_in n_chunks_out BLOCK_SIZE_IN BLOCK_SIZE_OUT weight uninit2)

/-- Lines 140-183: the channels and the output buffer when the three producers have run
and `output_stream_partials` has just been declared, before the compute stage. -/
def after_producers (n_chunks_in n_chunks_out BLOCK_SIZE_IN BLOCK_SIZE_OUT : Nat)
    (input output : Nat → T) (weight : Nat → Nat → T) (bias uninit : Nat → T)
    (uninit2 : Nat → Nat → T) : V2State T :=
  { input_stream :=
      input_stream_producer n_chunks_in n_chunks_out BLOCK_SIZE_IN input uninit
        HlsStream.empty
    weight_stream :=
      weight_stream_producer n_chunks_in n_chunks_out BLOCK_SIZE_IN BLOCK_SIZE_OUT
        weight uninit2 HlsStream.empty
    bias_stream := bias_stream_producer n_chunks_out BLOCK_SIZE_OUT bias uninit
      HlsStream.empty
    output_stream_partials := HlsStream.empty
    output := output }

/-- The first `n` elements of every tile of a list of tiles. -/
def tiles_readback (n : Nat) (tiles : List (Nat → T)) : List (List T) :=
  tiles.map (fun t => (List.range n).map t)

/-! ## `linear` with checked array accesses -/

/-- A read `a[i]` of an array held as the list of its elements; an index outside the
array is a fault. -/
def load (a : List T) (i : Nat) : Except Fault T :=
  match a[i]? with
  | some v => Except.ok v
  | none => Except.error Fault.out_of_bounds

/-- A read `w[i][j]` of a two dimensional array held as the list of its rows. -/
def load2 (w : List (List T)) (i j : Nat) : Except Fault T :=
  match w[i]? with
  | some row => load row j
  | none => Except.error Fault.out_of_bounds

/-- A store `a[i] = v`; an index outside the array is a fault. -/
def store (a : List T) (i : Nat) (v : T) : Except Fault (List T) :=
  if i < a.length then Except.ok (a.set i v) else Except.error Fault.out_of_bounds

/-- The mutable state of `linear_checked`. -/
structure LinearStateChecked (T : Type) where
  output : List T
  temp_sum : List T

/-- `BIAS_WRITE` (lines 43-47) with checked accesses. -/
def BIAS_WRITE_checked (BLOCK_SIZE_OUT a : Nat) (bias output : List T) :
    Except Fault (List T) :=
  forUpToM BLOCK_SIZE_OUT
    (fun b out =>
      match load bias (a + b) with
      | Except.error e => Except.error e
      | Except.ok v => store out (a + b) v) output

/-- `BIAS_BLOCK_OUT` (lines 39-48) with checked accesses. -/
def BIAS_BLOCK_OUT_checked (out_size BLOCK_SIZE_OUT : Nat) (bias output : List T) :
    Except Fault (List T) :=
  forStep out_size 0 out_size BLOCK_SIZE_OUT
    (fun a out => BIAS_WRITE_checked BLOCK_SIZE_OUT a bias out) output

/-- `TEMP_SUM_ZERO_LOOP` (lines 58-61) with checked accesses. -/
def TEMP_SUM_ZERO_LOOP_checked [Zero T] (BLOCK_SIZE_OUT : Nat) (temp_sum : List T) :
    Except Fault (List T) :=
  forUpToM BLOCK_SIZE_OUT (fun k t => store t k 0) temp_sum

/-- `SUM_INNER` (lines 68-71) with checked accesses. -/
def SUM_INNER_checked [Add T] [Mul T] (BLOCK_SIZE_IN i j k : Nat) (input : List T)
    (weight : List (List T)) (temp_sum : List T) : Except Fault (List T) :=
  forUpToM BLOCK_SIZE_IN
    (fun l t =>
      match load2 weight (i + k) (j + l) with
      | Except.error e => Except.error e
      | Except.ok w =>
        match load input (j + l) with
        | Except.error e => Except.error e
        | Except.ok x =>
          match load t k with
          | Except.error e => Except.error e
          | Except.ok tk => store t k (tk + w * x)) temp_sum

/-- `SUM_OUTER` (lines 65-72) with checked accesses. -/
def SUM_OUTER_checked [Add T] [Mul T] (BLOCK_SIZE_IN BLOCK_SIZE_OUT i j : Nat)
    (input : List T) (weight : List (List T)) (temp_sum : List T) : Except Fault (List T) :=
  forUpToM BLOCK_SIZE_OUT
    (fun k t => SUM_INNER_checked BLOCK_SIZE_IN i j k input weight t) temp_sum

/-- `WRITE_LOOP` (lines 75-78) with checked accesses. -/
def WRITE_LOOP_checked [Add T] (BLOCK_SIZE_OUT i : Nat) (temp_sum output : List T) :
    Except Fault (List T) :=
  forUpToM BLOCK_SIZE_OUT
    (fun k out =>
      match load out (i + k) with
      | Except.error e => Except.error e
      | Except.ok o =>
        match load temp_sum k with
        | Except.error e => Except.error e
        | Except.ok t => store out (i + k) (o + t)) output

/-- The body of `BLOCK_IN` (lines 55-78) with checked accesses. -/
def BLOCK_IN_body_checked [Zero T] [Add T] [Mul T] (BLOCK_SIZE_IN BLOCK_SIZE_OUT i j : Nat)
    (input : List T) (weight : List (List T)) (s : LinearStateChecked T) :
    Except Fault (LinearStateChecked T) :=
  match TEMP_SUM_ZERO_LOOP_checked BLOCK_SIZE_OUT s.temp_sum with
  | Except.error e => Except.error e
  | Except.ok t0 =>
    match SUM_OUTER_checked BLOCK_SIZE_IN BLOCK_SIZE_OUT i j input weight t0 with
    | Except.error e => Except.error e
    | Except.ok t1 =>
      match WRITE_LOOP_checked BLOCK_SIZE_OUT i t1 s.output with
      | Except.error e => Except.error e
      | Except.ok out => Except.ok { output := out, temp_sum := t1 }

/-- `BLOCK_IN` (lines 53-79) with checked accesses. -/
def BLOCK_IN_checked [Zero T] [Add T] [Mul T] (in_size BLOCK_SIZE_IN BLOCK_SIZE_OUT i : Nat)
    (input : List T) (weight : List (List T)) (s : LinearStateChecked T) :
    Except Fault (LinearStateChecked T) :=
  forStep in_size 0 in_size BLOCK_SIZE_IN
    (fun j st => BLOCK_IN_body_checked BLOCK_SIZE_IN BLOCK_SIZE_OUT i j input weight st) s

/-- `BLOCK_OUT` (lines 51-80) with checked accesses. -/
def BLOCK_OUT_checked [Zero T] [Add T] [Mul T]
    (in_size out_size BLOCK_SIZE_IN BLOCK_SIZE_OUT : Nat)
    (input : List T) (weight : List (List T)) (s : LinearStateChecked T) :
    Except Fault (LinearStateChecked T) :=
  forStep out_size 0 out_size BLOCK_SIZE_OUT
    (fun i st => BLOCK_IN_checked in_size BLOCK_SIZE_IN BLOCK_SIZE_OUT i input weight st) s

/-- The loops of `linear` (lines 38-80) with checked accesses, without the assertions
of lines 11-14. -/
def linear_loops_checked [Zero T] [Add T] [Mul T]
    (in_size out_size BLOCK_SIZE_IN BLOCK_SIZE_OUT : Nat)
    (input output : List T) (weight : List (List T)) (bias temp_sum : List T) :
    Except Fault (List T) :=
  match BIAS_BLOCK_OUT_checked out_size BLOCK_SIZE_OUT bias output with
  | Except.error e => Except.error e
  | Except.ok out1 =>
    match BLOCK_OUT_checked in_size out_size BLOCK_SIZE_IN BLOCK_SIZE_OUT input weight
        { output := out1, temp_sum := temp_sum } with
    | Except.error e => Except.error e
    | Except.ok s => Except.ok s.output

/-- `linear` (lines 5-81) with checked accesses: `input` has `in_size` elements, `output`
and `bias` have `out_size`, `weight` has `out_size` rows of `in_size` elements and the
local `temp_sum` has `BLOCK_SIZE_OUT`. -/
def linear_checked [Zero T] [Add T] [Mul T]
    (in_size out_size BLOCK_SIZE_IN BLOCK_SIZE_OUT : Nat)
    (input output : List T) (weight : List (List T)) (bias temp_sum : List T) :
    Except Fault (List T) :=
  if static_assert_divisible in_size BLOCK_SIZE_IN = false then
    Except.error Fault.static_assert_failed
  else if static_assert_divisible out_size BLOCK_SIZE_OUT = false then
    Except.error Fault.static_assert_failed
  else
    linear_loops_checked in_size out_size BLOCK_SIZE_IN BLOCK_SIZE_OUT input output weight
      bias temp_sum

/-- A checked array of `n` elements holds the same values as a map, below `n`. -/
def agrees (n : Nat) (xs : List T) (f : Nat → T) : Prop :=
  xs.length = n ∧ ∀ i, i < n → xs[i]? = some (f i)

/-- A checked matrix of `rows` rows of `cols` elements holds the same values as a map. -/
def agrees2 (rows cols : Nat) (w : List (List T)) (f : Nat → Nat → T) : Prop :=
  w.length = rows ∧ ∀ i, i < rows → ∃ row, w[i]? = some row ∧ agrees cols row (f i)

/-- The checked computation `rc` returns, and its result is related by `R` to `s`. -/
def Sim {σc σ : Type} (R : σc → σ → Prop) (rc : Except Fault σc) (s : σ) : Prop :=
  ∃ sc, rc = Except.ok sc ∧ R sc s

/-! ## Loops -/

theorem forUpTo_succ_front {σ : Type} (n : Nat) (body : Nat → σ → σ) (s : σ) :
    forUpTo (n + 1) body s = forUpTo n (fun k => body (k + 1)) (body 0 s) := by
  induction n with
  | zero => rfl
  | succ n ih =>
    show body (n + 1) (forUpTo (n + 1) body s) = body (n + 1) (forUpTo n _ (body 0 s))
    rw [ih]

theorem forUpTo_congr {σ : Type} (n : Nat) (f g : Nat → σ → σ) (s : σ)
    (h : ∀ k, k < n → ∀ st, f k st = g k st) : forUpTo n f s = forUpTo n g s := by
  induction n with
  | zero => rfl
  | succ n ih =>
    show f n (forUpTo n f s) = g n (forUpTo n g s)
    rw [ih (fun k hk st => h k (Nat.lt_succ_of_lt hk) st), h n (Nat.lt_succ_self n)]

/-- A stepped loop with a positive step, a bound that is `n` steps away and a budget of at
least `n` iterations runs its body exactly at `i, i + step, ..., i + (n-1) * step`. -/
theorem forStep_eq_forUpTo {σ : Type} (step : Nat) (hstep : 0 < step)
    (body : Nat → σ → Except Fault σ) (f : Nat → σ → σ)
    (hb : ∀ j st, body j st = Except.ok (f j st)) :
    ∀ (n fuel i : Nat) (s : σ), n ≤ fuel →
      forStep fuel i (i + n * step) step body s
        = Except.ok (forUpTo n (fun c => f (i + c * step)) s) := by
  intro n
  induction n with
  | zero =>
    intro fuel i s _
    cases fuel <;> simp [forStep, forUpTo]
  | succ n ih =>
    intro fuel i s hfuel
    obtain ⟨f1, rfl⟩ : ∃ f1, fuel = f1 + 1 := ⟨fuel - 1, by omega⟩
    have hlt : i < i + (n + 1) * step := by
      have : 0 < (n + 1) * step := Nat.mul_pos (Nat.succ_pos n) hstep
      omega
    have hhi : i + (n + 1) * step = (i + step) + n * step := by ring
    rw [forUpTo_succ_front]
    simp only [forStep, hlt, if_true, hb]
    rw [hhi, ih f1 (i + step) (f i s) (by omega)]
    have e1 : f (i + 0 * step) s = f i s := by simp
    rw [e1]
    congr 1
    apply forUpTo_congr
    intro k _ st
    have : i + step + k * step = i + (k + 1) * step := by ring
    rw [this]

/-- The loop `for (i = 0; i < n * step; i += step)` with budget `n * step`. -/
theorem forStep_tiles {σ : Type} (step : Nat) (hstep : 0 < step)
    (body : Nat → σ → Except Fault σ) (f : Nat → σ → σ)
    (hb : ∀ j st, body j st = Except.ok (f j st)) (n : Nat) (s : σ) :
    forStep (n * step) 0 (n * step) step body s
      = Except.ok (forUpTo n (fun c => f (c * step)) s) := by
  have h := forStep_eq_forUpTo step hstep body f hb n (n * step) 0 s
    (Nat.le_mul_of_pos_right n hstep)
  simpa using h

/-- Stores to pairwise distinct cells `a + k`, each depending on the old content of its own
cell only. -/
theorem forUpTo_update_offset {α : Type} (a : Nat) (g : Nat → α → α) (n : Nat) (out : Nat → α)
    (x : Nat) :
    forUpTo n (fun k o => Function.update o (a + k) (g k (o (a + k)))) out x
      = if a ≤ x ∧ x < a + n then g (x - a) (out x) else out x := by
  induction n with
  | zero =>
    have h0 : ¬ (a ≤ x ∧ x < a + 0) := by omega
    rw [if_neg h0]
    rfl
  | succ n ih =>
    show Function.update _ (a + n) _ x = _
    by_cases hx : x = a + n
    · subst hx
      rw [Function.update_same, ih]
      simp
    · rw [Function.update_noteq hx, ih]
      by_cases h1 : a ≤ x ∧ x < a + n
      · have h2 : a ≤ x ∧ x < a + (n + 1) := ⟨h1.1, by omega⟩
        rw [if_pos h1, if_pos h2]
      · have h2 : ¬ (a ≤ x ∧ x < a + (n + 1)) := by omega
        rw [if_neg h1, if_neg h2]

/-- Stores to the cells `k < n`, each depending on the old content of its own cell only. -/
theorem forUpTo_update_self {α : Type} (g : Nat → α → α) (n : Nat) (out : Nat → α) (x : Nat) :
    forUpTo n (fun k o => Function.update o k (g k (o k))) out x
      = if x < n then g x (out x) else out x := by
  have h := forUpTo_update_offset 0 g n out x
  simpa using h

/-- A sweep over `m` consecutive blocks of width `B`, block `c` rewriting the cells
`c * B, ..., c * B + B - 1` from their own old content, rewrites every cell below `m * B`
exactly once. -/
theorem forUpTo_blocks {σ α : Type} (B : Nat) (F : Nat → σ → σ) (proj : σ → Nat → α)
    (h : Nat → α → α)
    (hF : ∀ c s x, proj (F c s) x
      = if c * B ≤ x ∧ x < c * B + B then h x (proj s x) else proj s x)
    (m : Nat) (s : σ) (x : Nat) :
    proj (forUpTo m F s) x = if x < m * B then h x (proj s x) else proj s x := by
  induction m with
  | zero => simp [forUpTo]
  | succ m ih =>
    show proj (F m (forUpTo m F s)) x = _
    rw [hF, ih]
    have e : (m + 1) * B = m * B + B := by ring
    by_cases h1 : m * B ≤ x ∧ x < m * B + B
    · have h2 : ¬ x < m * B := by omega
      have h3 : x < (m + 1) * B := by omega
      rw [if_pos h1, if_neg h2, if_pos h3]
    · rw [if_neg h1]
      by_cases h2 : x < m * B
      · have h3 : x < (m + 1) * B := by omega
        rw [if_pos h2, if_pos h3]
      · have h3 : ¬ x < (m + 1) * B := by omega
        rw [if_neg h2, if_neg h3]

/-- Repeated accumulation into the cells selected by `P`. -/
theorem forUpTo_accumulate {σ α : Type} [Add α] (F : Nat → σ → σ) (proj : σ → Nat → α)
    (P : Nat → Prop) [DecidablePred P] (t : Nat → Nat → α)
    (hF : ∀ d s x, proj (F d s) x = if P x then proj s x + t d x else proj s x)
    (n : Nat) (s : σ) (x : Nat) :
    proj (forUpTo n F s) x
      = if P x then forUpTo n (fun d acc => acc + t d x) (proj s x) else proj s x := by
  induction n with
  | zero => simp [forUpTo]
  | succ n ih =>
    show proj (F n (forUpTo n F s)) x = _
    rw [hF, ih]
    by_cases hP : P x
    · simp only [if_pos hP]
      rfl
    · simp only [if_neg hP]

/-! ## What `linear` computes -/

theorem BIAS_WRITE_apply (BLOCK_SIZE_OUT a : Nat) (bias out : Nat → T) (x : Nat) :
    BIAS_WRITE BLOCK_SIZE_OUT a bias out x
      = if a ≤ x ∧ x < a + BLOCK_SIZE_OUT then bias x else out x := by
  have h := forUpTo_update_offset a (fun k _ => bias (a + k)) BLOCK_SIZE_OUT out x
  unfold BIAS_WRITE
  rw [h]
  by_cases h1 : a ≤ x ∧ x < a + BLOCK_SIZE_OUT
  · have e : a + (x - a) = x := by omega
    rw [if_pos h1, if_pos h1, e]
  · rw [if_neg h1, if_neg h1]

theorem TEMP_SUM_ZERO_LOOP_apply [Zero T] (BLOCK_SIZE_OUT : Nat) (t : Nat → T) (x : Nat) :
    TEMP_SUM_ZERO_LOOP BLOCK_SIZE_OUT t x = if x < BLOCK_SIZE_OUT then 0 else t x :=
  forUpTo_update_self (fun _ _ => (0 : T)) BLOCK_SIZE_OUT t x

theorem SUM_INNER_apply [Add T] [Mul T] (BLOCK_SIZE_IN i j k : Nat) (input : Nat → T)
    (weight : Nat → Nat → T) (t : Nat → T) :
    SUM_INNER BLOCK_SIZE_IN i j k input weight t
      = Function.update t k
          (forUpTo BLOCK_SIZE_IN (fun l acc => acc + weight (i + k) (j + l) * input (j + l))
            (t k)) := by
  unfold SUM_INNER
  induction BLOCK_SIZE_IN with
  | zero => simp [forUpTo]
  | succ n ih =>
    show Function.update (forUpTo n _ t) k (forUpTo n _ t k + _) = _
    rw [ih]
    simp [forUpTo]

theorem SUM_OUTER_apply [Add T] [Mul T] (BLOCK_SIZE_IN BLOCK_SIZE_OUT i j : Nat)
    (input : Nat → T) (weight : Nat → Nat → T) (t : Nat → T) (x : Nat) :
    SUM_OUTER BLOCK_SIZE_IN BLOCK_SIZE_OUT i j input weight t x
      = if x < BLOCK_SIZE_OUT then
          forUpTo BLOCK_SIZE_IN (fun l acc => acc + weight (i + x) (j + l) * input (j + l)) (t x)
        else t x := by
  unfold SUM_OUTER
  simp only [SUM_INNER_apply]
  exact forUpTo_update_self
    (fun k v => forUpTo BLOCK_SIZE_IN
      (fun l acc => acc + weight (i + k) (j + l) * input (j + l)) v) BLOCK_SIZE_OUT t x

theorem WRITE_LOOP_apply [Add T] (BLOCK_SIZE_OUT i : Nat) (t out : Nat → T) (x : Nat) :
    WRITE_LOOP BLOCK_SIZE_OUT i t out x
      = if i ≤ x ∧ x < i + BLOCK_SIZE_OUT then out x + t (x - i) else out x :=
  forUpTo_update_offset i (fun k v => v + t k) BLOCK_SIZE_OUT out x

theorem BLOCK_IN_body_output [Zero T] [Add T] [Mul T] (BLOCK_SIZE_IN BLOCK_SIZE_OUT i j : Nat)
    (input : Nat → T) (weight : Nat → Nat → T) (s : LinearState T) (x : Nat) :
    (BLOCK_IN_body BLOCK_SIZE_IN BLOCK_SIZE_OUT i j input weight s).output x
      = if i ≤ x ∧ x < i + BLOCK_SIZE_OUT then
          s.output x + tile_dot BLOCK_SIZE_IN x j input weight
        else s.output x := by
  show WRITE_LOOP BLOCK_SIZE_OUT i _ s.output x = _
  rw [WRITE_LOOP_apply]
  by_cases h1 : i ≤ x ∧ x < i + BLOCK_SIZE_OUT
  · have h2 : x - i < BLOCK_SIZE_OUT := by omega
    have e : i + (x - i) = x := by omega
    rw [if_pos h1, if_pos h1, SUM_OUTER_apply, if_pos h2, TEMP_SUM_ZERO_LOOP_apply, if_pos h2, e]
    rfl
  · rw [if_neg h1, if_neg h1]

theorem BLOCK_IN_eq [Zero T] [Add T] [Mul T] (n BLOCK_SIZE_IN BLOCK_SIZE_OUT i : Nat)
    (hBI : 0 < BLOCK_SIZE_IN) (input : Nat → T) (weight : Nat → Nat → T) (s : LinearState T) :
    BLOCK_IN (n * BLOCK_SIZE_IN) BLOCK_SIZE_IN BLOCK_SIZE_OUT i input weight s
      = Except.ok (forUpTo n
          (fun d => BLOCK_IN_body BLOCK_SIZE_IN BLOCK_SIZE_OUT i (d * BLOCK_SIZE_IN) input weight)
          s) :=
  forStep_tiles BLOCK_SIZE_IN hBI _ _ (fun _ _ => rfl) n s

theorem BLOCK_IN_output [Zero T] [Add T] [Mul T] (n BLOCK_SIZE_IN BLOCK_SIZE_OUT i : Nat)
    (input : Nat → T) (weight : Nat → Nat → T) (s : LinearState T) (x : Nat) :
    (forUpTo n
      (fun d => BLOCK_IN_body BLOCK_SIZE_IN BLOCK_SIZE_OUT i (d * BLOCK_SIZE_IN) input weight)
      s).output x
      = if i ≤ x ∧ x < i + BLOCK_SIZE_OUT then
          block_fold n BLOCK_SIZE_IN x input weight (s.output x)
        else s.output x :=
  forUpTo_accumulate
    (fun d => BLOCK_IN_body BLOCK_SIZE_IN BLOCK_SIZE_OUT i (d * BLOCK_SIZE_IN) input weight)
    LinearState.output (fun x => i ≤ x ∧ x < i + BLOCK_SIZE_OUT)
    (fun d x => tile_dot BLOCK_SIZE_IN x (d * BLOCK_SIZE_IN) input weight)
    (fun d s x => BLOCK_IN_body_output BLOCK_SIZE_IN BLOCK_SIZE_OUT i (d * BLOCK_SIZE_IN)
      input weight s x) n s x

theorem BLOCK_OUT_eq [Zero T] [Add T] [Mul T] (n m BLOCK_SIZE_IN BLOCK_SIZE_OUT : Nat)
    (hBI : 0 < BLOCK_SIZE_IN) (hBO : 0 < BLOCK_SIZE_OUT) (input : Nat → T)
    (weight : Nat → Nat → T) (s : LinearState T) :
    BLOCK_OUT (n * BLOCK_SIZE_IN) (m * BLOCK_SIZE_OUT) BLOCK_SIZE_IN BLOCK_SIZE_OUT input weight s
      = Except.ok (forUpTo m
          (fun c => forUpTo n
            (fun d => BLOCK_IN_body BLOCK_SIZE_IN BLOCK_SIZE_OUT (c * BLOCK_SIZE_OUT)
              (d * BLOCK_SIZE_IN) input weight)) s) :=
  forStep_tiles BLOCK_SIZE_OUT hBO _
    (fun i => forUpTo n
      (fun d => BLOCK_IN_body BLOCK_SIZE_IN BLOCK_SIZE_OUT i (d * BLOCK_SIZE_IN) input weight))
    (fun i st => BLOCK_IN_eq n BLOCK_SIZE_IN BLOCK_SIZE_OUT i hBI input weight st) m s

theorem BLOCK_OUT_output [Zero T] [Add T] [Mul T] (n m BLOCK_SIZE_IN BLOCK_SIZE_OUT : Nat)
    (input : Nat → T) (weight : Nat → Nat → T) (s : LinearState T) (x : Nat) :
    (forUpTo m
      (fun c => forUpTo n
        (fun d => BLOCK_IN_body BLOCK_SIZE_IN BLOCK_SIZE_OUT (c * BLOCK_SIZE_OUT)
          (d * BLOCK_SIZE_IN) input weight)) s).output x
      = if x < m * BLOCK_SIZE_OUT then block_fold n BLOCK_SIZE_IN x input weight (s.output x)
        else s.output x :=
  forUpTo_blocks BLOCK_SIZE_OUT
    (fun c => forUpTo n
      (fun d => BLOCK_IN_body BLOCK_SIZE_IN BLOCK_SIZE_OUT (c * BLOCK_SIZE_OUT)
        (d * BLOCK_SIZE_IN) input weight))
    LinearState.output (fun x v => block_fold n BLOCK_SIZE_IN x input weight v)
    (fun c s x => BLOCK_IN_output n BLOCK_SIZE_IN BLOCK_SIZE_OUT (c * BLOCK_SIZE_OUT)
      input weight s x) m s x

theorem BIAS_BLOCK_OUT_eq (m BLOCK_SIZE_OUT : Nat) (hBO : 0 < BLOCK_SIZE_OUT)
    (bias out : Nat → T) :
    BIAS_BLOCK_OUT (m * BLOCK_SIZE_OUT) BLOCK_SIZE_OUT bias out
      = Except.ok (forUpTo m
          (fun c => BIAS_WRITE BLOCK_SIZE_OUT (c * BLOCK_SIZE_OUT) bias) out) :=
  forStep_tiles BLOCK_SIZE_OUT hBO _ (fun a => BIAS_WRITE BLOCK_SIZE_OUT a bias)
    (fun _ _ => rfl) m out

theorem BIAS_BLOCK_OUT_apply (m BLOCK_SIZE_OUT : Nat) (bias out : Nat → T) (x : Nat) :
    forUpTo m (fun c => BIAS_WRITE BLOCK_SIZE_OUT (c * BLOCK_SIZE_OUT) bias) out x
      = if x < m * BLOCK_SIZE_OUT then bias x else out x :=
  forUpTo_blocks BLOCK_SIZE_OUT
    (fun c => BIAS_WRITE BLOCK_SIZE_OUT (c * BLOCK_SIZE_OUT) bias) (fun o => o)
    (fun x _ => bias x)
    (fun c s x => BIAS_WRITE_apply BLOCK_SIZE_OUT (c * BLOCK_SIZE_OUT) bias s x) m out x

theorem static_assert_divisible_iff (size block : Nat) :
    static_assert_divisible size block = true ↔ block ≠ 0 ∧ size % block = 0 := by
  simp [static_assert_divisible]

/-- The result of `linear` on a valid configuration, with the order of the additions kept:
`linear` returns, every cell below `out_size` holds the block-wise fold started from its
bias, and every other cell is untouched. -/
theorem linear_eq_block_fold [Zero T] [Add T] [Mul T]
    (in_size out_size BLOCK_SIZE_IN BLOCK_SIZE_OUT : Nat)
    (hBI : 0 < BLOCK_SIZE_IN) (hBO : 0 < BLOCK_SIZE_OUT)
    (hin : in_size % BLOCK_SIZE_IN = 0) (hout : out_size % BLOCK_SIZE_OUT = 0)
    (input output : Nat → T) (weight : Nat → Nat → T) (bias temp_sum : Nat → T) :
    ∃ out, linear in_size out_size BLOCK_SIZE_IN BLOCK_SIZE_OUT input output weight bias temp_sum
        = Except.ok out ∧
      ∀ x, out x = if x < out_size then
          block_fold (in_size / BLOCK_SIZE_IN) BLOCK_SIZE_IN x input weight (bias x)
        else output x := by
  have ein : in_size = in_size / BLOCK_SIZE_IN * BLOCK_SIZE_IN :=
    (Nat.div_mul_cancel (Nat.dvd_of_mod_eq_zero hin)).symm
  have eout : out_size = out_size / BLOCK_SIZE_OUT * BLOCK_SIZE_OUT :=
    (Nat.div_mul_cancel (Nat.dvd_of_mod_eq_zero hout)).symm
  have a1 : static_assert_divisible in_size BLOCK_SIZE_IN = true :=
    (static_assert_divisible_iff _ _).2 ⟨Nat.pos_iff_ne_zero.1 hBI, hin⟩
  have a2 : static_assert_divisible out_size BLOCK_SIZE_OUT = true :=
    (static_assert_divisible_iff _ _).2 ⟨Nat.pos_iff_ne_zero.1 hBO, hout⟩
  generalize in_size / BLOCK_SIZE_IN = n at ein ⊢
  generalize out_size / BLOCK_SIZE_OUT = m at eout
  subst ein
  subst eout
  refine ⟨(forUpTo m
      (fun c => forUpTo n
        (fun d => BLOCK_IN_body BLOCK_SIZE_IN BLOCK_SIZE_OUT (c * BLOCK_SIZE_OUT)
          (d * BLOCK_SIZE_IN) input weight))
      { output := forUpTo m
          (fun c => BIAS_WRITE BLOCK_SIZE_OUT (c * BLOCK_SIZE_OUT) bias) output,
        temp_sum := temp_sum }).output, ?_, ?_⟩
  · unfold linear
    rw [a1, a2, BIAS_BLOCK_OUT_eq m BLOCK_SIZE_OUT hBO]
    simp only [Bool.true_eq_false, if_false]
    rw [BLOCK_OUT_eq n m BLOCK_SIZE_IN BLOCK_SIZE_OUT hBI hBO]
  · intro x
    rw [BLOCK_OUT_output]
    simp only [BIAS_BLOCK_OUT_apply]
    by_cases hx : x < m * BLOCK_SIZE_OUT
    · simp only [if_pos hx]
    · simp only [if_neg hx]

/-! ## Exact arithmetic -/

theorem forUpTo_add_eq_sum {α : Type} [AddCommMonoid α] (f : Nat → α) (n : Nat) (a : α) :
    forUpTo n (fun l acc => acc + f l) a = a + ∑ l in Finset.range n, f l := by
  induction n with
  | zero => simp [forUpTo]
  | succ n ih =>
    show forUpTo n (fun l acc => acc + f l) a + f n = _
    rw [ih, Finset.sum_range_succ, add_assoc]

theorem sum_range_tiles {α : Type} [AddCommMonoid α] (g : Nat → α) (n B : Nat) :
    ∑ j in Finset.range (n * B), g j
      = ∑ d in Finset.range n, ∑ l in Finset.range B, g (d * B + l) := by
  induction n with
  | zero => simp
  | succ n ih =>
    have e : (n + 1) * B = n * B + B := by ring
    rw [e, Finset.sum_range_add, ih, Finset.sum_range_succ]

theorem tile_dot_eq_sum [Semiring T] (BLOCK_SIZE_IN x j : Nat) (input : Nat → T)
    (weight : Nat → Nat → T) :
    tile_dot BLOCK_SIZE_IN x j input weight
      = ∑ l in Finset.range BLOCK_SIZE_IN, weight x (j + l) * input (j + l) := by
  unfold tile_dot
  rw [forUpTo_add_eq_sum (fun l => weight x (j + l) * input (j + l)), zero_add]

theorem block_fold_eq_sum [Semiring T] (n BLOCK_SIZE_IN x : Nat) (input : Nat → T)
    (weight : Nat → Nat → T) (start : T) :
    block_fold n BLOCK_SIZE_IN x input weight start
      = start + ∑ j in Finset.range (n * BLOCK_SIZE_IN), weight x j * input j := by
  unfold block_fold
  rw [forUpTo_add_eq_sum
    (fun d => tile_dot BLOCK_SIZE_IN x (d * BLOCK_SIZE_IN) input weight),
    sum_range_tiles (fun j => weight x j * input j)]
  simp only [tile_dot_eq_sum]

/-- On a valid configuration and over a semiring, `linear` returns and leaves
`bias[x] + Σ_j weight[x][j] * input[j]` in every cell `x < out_size`. -/
theorem linear_eq_sum [Semiring T] (in_size out_size BLOCK_SIZE_IN BLOCK_SIZE_OUT : Nat)
    (hBI : 0 < BLOCK_SIZE_IN) (hBO : 0 < BLOCK_SIZE_OUT)
    (hin : in_size % BLOCK_SIZE_IN = 0) (hout : out_size % BLOCK_SIZE_OUT = 0)
    (input output : Nat → T) (weight : Nat → Nat → T) (bias temp_sum : Nat → T) :
    ∃ out, linear in_size out_size BLOCK_SIZE_IN BLOCK_SIZE_OUT input output weight bias temp_sum
        = Except.ok out ∧
      ∀ x, x < out_size →
        out x = bias x + ∑ j in Finset.range in_size, weight x j * input j := by
  obtain ⟨out, h1, h2⟩ := linear_eq_block_fold in_size out_size BLOCK_SIZE_IN BLOCK_SIZE_OUT
    hBI hBO hin hout input output weight bias temp_sum
  refine ⟨out, h1, ?_⟩
  intro x hx
  rw [h2 x, if_pos hx, block_fold_eq_sum,
    Nat.div_mul_cancel (Nat.dvd_of_mod_eq_zero hin)]

/-! ## Claims -/

/-- C1: for every `in_size`, `out_size` and positive block sizes with
`in_size % BLOCK_SIZE_IN = 0` and `out_size % BLOCK_SIZE_OUT = 0`, and every input, weight
and bias over a semiring (so over the integers, the rationals and every commutative
semiring), `linear` returns and afterwards
`output[i] = bias[i] + Σ_{j < in_size} weight[i][j] * input[j]` for every `i < out_size`,
whatever `output` and the uninitialised `temp_sum` held before. -/
theorem linear_functional_correctness [Semiring T]
    (in_size out_size BLOCK_SIZE_IN BLOCK_SIZE_OUT : Nat)
    (hBI : 0 < BLOCK_SIZE_IN) (hBO : 0 < BLOCK_SIZE_OUT)
    (hin : in_size % BLOCK_SIZE_IN = 0) (hout : out_size % BLOCK_SIZE_OUT = 0)
    (input output : Nat → T) (weight : Nat → Nat → T) (bias temp_sum : Nat → T) :
    ∃ out, linear in_size out_size BLOCK_SIZE_IN BLOCK_SIZE_OUT input output weight bias temp_sum
        = Except.ok out ∧
      ∀ i, i < out_size →
        out i = bias i + ∑ j in Finset.range in_size, weight i j * input j :=
  linear_eq_sum in_size out_size BLOCK_SIZE_IN BLOCK_SIZE_OUT hBI hBO hin hout
    input output weight bias temp_sum

/-- C1, the concrete scenario: `in_size = 4`, `out_size = 2`, `BLOCK_SIZE_IN = 2`,
`BLOCK_SIZE_OUT = 1`, `weight = [[1,2,3,4],[5,6,7,8]]`, `input = [1,1,1,1]`,
`bias = [0,0]` over the integers give `output = [10, 26]`, in agreement with the
general statement. -/
theorem linear_functional_correctness_witness :
    (0 < 2 ∧ 0 < 1 ∧ 4 % 2 = 0 ∧ 2 % 1 = 0) ∧
    readback 2 (linear 4 2 2 1 (vec [1, 1, 1, 1]) (vec [])
      (mat [[1, 2, 3, 4], [5, 6, 7, 8]]) (vec [0, 0]) (vec [] : Nat → Int))
      = Except.ok [10, 26] ∧
    ∃ out, linear 4 2 2 1 (vec [1, 1, 1, 1]) (vec [])
        (mat [[1, 2, 3, 4], [5, 6, 7, 8]]) (vec [0, 0]) (vec [] : Nat → Int) = Except.ok out ∧
      ∀ i, i < 2 → out i = (vec [0, 0] : Nat → Int) i
        + ∑ j in Finset.range 4,
            (mat [[1, 2, 3, 4], [5, 6, 7, 8]] : Nat → Nat → Int) i j
              * (vec [1, 1, 1, 1] : Nat → Int) j :=
  ⟨by decide, rfl,
    linear_functional_correctness 4 2 2 1 (by decide) (by decide) (by decide) (by decide)
      (vec [1, 1, 1, 1]) (vec []) (mat [[1, 2, 3, 4], [5, 6, 7, 8]]) (vec [0, 0]) (vec [])⟩

theorem vmm_row_eq_sum [Semiring T] (DIM_IN i : Nat) (input : Nat → T)
    (weight : Nat → Nat → T) :
    vmm_row DIM_IN i input weight = ∑ j in Finset.range DIM_IN, weight i j * input j := by
  unfold vmm_row
  rw [forUpTo_add_eq_sum (fun j => weight i j * input j), zero_add]

theorem vmm_unrolled_tile_apply [Zero T] [Add T] [Mul T] (DIM_IN DIM_OUT : Nat)
    (input : Nat → T) (weight : Nat → Nat → T) (output : Nat → T) (x : Nat) :
    vmm_unrolled_tile DIM_IN DIM_OUT input weight output x
      = if x < DIM_OUT then vmm_row DIM_IN x input weight else output x :=
  forUpTo_update_self (fun k _ => vmm_row DIM_IN k input weight) DIM_OUT output x

/-- C2: for every `DIM_IN`, `DIM_OUT`, input tile and weight tile (over a semiring),
`vmm_unrolled_tile` sets `output[i] = Σ_{j < DIM_IN} weight[i][j] * input[j]` for every
`i < DIM_OUT`; the result does not depend on what the output tile held before the call
(two calls with the same tiles give the same output tile), and no cell outside the tile
is written. -/
theorem vmm_unrolled_tile_pure [Semiring T] (DIM_IN DIM_OUT : Nat) (input : Nat → T)
    (weight : Nat → Nat → T) (output : Nat → T) :
    (∀ i, i < DIM_OUT →
      vmm_unrolled_tile DIM_IN DIM_OUT input weight output i
        = ∑ j in Finset.range DIM_IN, weight i j * input j) ∧
    (∀ (output2 : Nat → T) i, i < DIM_OUT →
      vmm_unrolled_tile DIM_IN DIM_OUT input weight output i
        = vmm_unrolled_tile DIM_IN DIM_OUT input weight output2 i) ∧
    (∀ i, DIM_OUT ≤ i → vmm_unrolled_tile DIM_IN DIM_OUT input weight output i = output i) := by
  refine ⟨?_, ?_, ?_⟩
  · intro i hi
    rw [vmm_unrolled_tile_apply, if_pos hi, vmm_row_eq_sum]
  · intro output2 i hi
    rw [vmm_unrolled_tile_apply, vmm_unrolled_tile_apply, if_pos hi, if_pos hi]
  · intro i hi
    rw [vmm_unrolled_tile_apply, if_neg (Nat.not_lt.2 hi)]

/-- C2 on a concrete pair of tiles: `weight = [[1,2],[3,4]]`, `input = [5,6]` give
`[17, 39]` from two different previous contents of the output tile. -/
theorem vmm_unrolled_tile_pure_witness :
    (List.range 2).map (vmm_unrolled_tile 2 2 (vec [5, 6]) (mat [[1, 2], [3, 4]])
      (vec [100, 200] : Nat → Int)) = [17, 39] ∧
    (List.range 2).map (vmm_unrolled_tile 2 2 (vec [5, 6]) (mat [[1, 2], [3, 4]])
      (vec [] : Nat → Int)) = [17, 39] ∧
    ∀ (output2 : Nat → Int) i, i < 2 →
      vmm_unrolled_tile 2 2 (vec [5, 6]) (mat [[1, 2], [3, 4]]) (vec [100, 200] : Nat → Int) i
        = vmm_unrolled_tile 2 2 (vec [5, 6]) (mat [[1, 2], [3, 4]]) output2 i :=
  ⟨rfl, rfl,
    (vmm_unrolled_tile_pure 2 2 (vec [5, 6]) (mat [[1, 2], [3, 4]])
      (vec [100, 200] : Nat → Int)).2.1⟩

/-- C3: `linear` overwrites rather than accumulates.  On a valid configuration and for
every input, weight and bias (no law of arithmetic is needed), two runs of `linear` that
start from any two contents of the output buffer (and of the uninitialised `temp_sum`)
both return and agree on every cell below `out_size`; in particular a run into a zeroed
buffer and a second run after re-zeroing give the same, single-run, result. -/
theorem linear_overwrites [Zero T] [Add T] [Mul T]
    (in_size out_size BLOCK_SIZE_IN BLOCK_SIZE_OUT : Nat)
    (hBI : 0 < BLOCK_SIZE_IN) (hBO : 0 < BLOCK_SIZE_OUT)
    (hin : in_size % BLOCK_SIZE_IN = 0) (hout : out_size % BLOCK_SIZE_OUT = 0)
    (input : Nat → T) (weight : Nat → Nat → T) (bias : Nat → T)
    (output1 output2 temp1 temp2 : Nat → T) :
    ∃ o1 o2,
      linear in_size out_size BLOCK_SIZE_IN BLOCK_SIZE_OUT input output1 weight bias temp1
        = Except.ok o1 ∧
      linear in_size out_size BLOCK_SIZE_IN BLOCK_SIZE_OUT input output2 weight bias temp2
        = Except.ok o2 ∧
      ∀ i, i < out_size → o1 i = o2 i := by
  obtain ⟨o1, h1, e1⟩ := linear_eq_block_fold in_size out_size BLOCK_SIZE_IN BLOCK_SIZE_OUT
    hBI hBO hin hout input output1 weight bias temp1
  obtain ⟨o2, h2, e2⟩ := linear_eq_block_fold in_size out_size BLOCK_SIZE_IN BLOCK_SIZE_OUT
    hBI hBO hin hout input output2 weight bias temp2
  refine ⟨o1, o2, h1, h2, ?_⟩
  intro i hi
  rw [e1 i, e2 i, if_pos hi, if_pos hi]

/-- C3 on the scenario of C1: the run into a zeroed buffer and the run into a buffer
holding `[1000, 2000]` both give `[10, 26]`. -/
theorem linear_overwrites_witness :
    (0 < 2 ∧ 0 < 1 ∧ 4 % 2 = 0 ∧ 2 % 1 = 0) ∧
    readback 2 (linear 4 2 2 1 (vec [1, 1, 1, 1]) (vec [1000, 2000])
      (mat [[1, 2, 3, 4], [5, 6, 7, 8]]) (vec [0, 0]) (vec [7, 7] : Nat → Int))
      = Except.ok [10, 26] ∧
    ∃ o1 o2,
      linear 4 2 2 1 (vec [1, 1, 1, 1]) (vec [])
        (mat [[1, 2, 3, 4], [5, 6, 7, 8]]) (vec [0, 0]) (vec [] : Nat → Int) = Except.ok o1 ∧
      linear 4 2 2 1 (vec [1, 1, 1, 1]) (vec [1000, 2000])
        (mat [[1, 2, 3, 4], [5, 6, 7, 8]]) (vec [0, 0]) (vec [7, 7] : Nat → Int)
        = Except.ok o2 ∧
      ∀ i, i < 2 → o1 i = o2 i :=
  ⟨by decide, rfl,
    linear_overwrites 4 2 2 1 (by decide) (by decide) (by decide) (by decide)
      (vec [1, 1, 1, 1]) (mat [[1, 2, 3, 4], [5, 6, 7, 8]]) (vec [0, 0])
      (vec []) (vec [1000, 2000]) (vec []) (vec [7, 7])⟩

/-- C4, counterexample: with `in_size = out_size = 1`, block sizes `1`, `weight = [[2]]`,
`input = [3]`, `bias = [1]` and a zeroed buffer, the second of two successive runs of
`linear` (no re-zeroing in between) leaves `output[0] = 7`, not
`2 * (2 * 3) + 2 * 1 = 14`. -/
theorem linear_twice_not_doubled :
    ∃ o1 o2,
      linear 1 1 1 1 (vec [3]) (fun _ => 0) (mat [[2]]) (vec [1]) (vec [] : Nat → Int)
        = Except.ok o1 ∧
      linear 1 1 1 1 (vec [3]) o1 (mat [[2]]) (vec [1]) (vec [] : Nat → Int) = Except.ok o2 ∧
      o2 0 = 7 ∧
      ¬ (o2 0 = 2 * (∑ j in Finset.range 1, (mat [[2]] : Nat → Nat → Int) 0 j
            * (vec [3] : Nat → Int) j) + 2 * (vec [1] : Nat → Int) 0) := by
  obtain ⟨o1, h1, _⟩ := linear_eq_sum 1 1 1 1 (by decide) (by decide) (by decide) (by decide)
    (vec [3]) (fun _ => 0) (mat [[2]]) (vec [1]) (vec [] : Nat → Int)
  obtain ⟨o2, h2, e2⟩ := linear_eq_sum 1 1 1 1 (by decide) (by decide) (by decide) (by decide)
    (vec [3]) o1 (mat [[2]]) (vec [1]) (vec [] : Nat → Int)
  have v : o2 0 = 7 := by
    rw [e2 0 (by decide)]
    simp [vec, mat]
  refine ⟨o1, o2, h1, h2, v, ?_⟩
  rw [v]
  simp [vec, mat]

/-- C4, amended: on a valid configuration and over a semiring, running `linear` twice in
succession on the same output buffer, with the same input, weight and bias and without
re-zeroing in between, gives the result of a single run: both runs return, and after the
second run `output[i] = bias[i] + Σ_{j < in_size} weight[i][j] * input[j]`, which is what
the first run left there, for every `i < out_size` and every initial buffer (a zeroed one
included). -/
theorem linear_twice_same_as_once [Semiring T]
    (in_size out_size BLOCK_SIZE_IN BLOCK_SIZE_OUT : Nat)
    (hBI : 0 < BLOCK_SIZE_IN) (hBO : 0 < BLOCK_SIZE_OUT)
    (hin : in_size % BLOCK_SIZE_IN = 0) (hout : out_size % BLOCK_SIZE_OUT = 0)
    (input output : Nat → T) (weight : Nat → Nat → T) (bias temp1 temp2 : Nat → T) :
    ∃ o1 o2,
      linear in_size out_size BLOCK_SIZE_IN BLOCK_SIZE_OUT input output weight bias temp1
        = Except.ok o1 ∧
      linear in_size out_size BLOCK_SIZE_IN BLOCK_SIZE_OUT input o1 weight bias temp2
        = Except.ok o2 ∧
      ∀ i, i < out_size →
        o2 i = bias i + ∑ j in Finset.range in_size, weight i j * input j ∧ o2 i = o1 i := by
  obtain ⟨o1, h1, e1⟩ := linear_eq_sum in_size out_size BLOCK_SIZE_IN BLOCK_SIZE_OUT
    hBI hBO hin hout input output weight bias temp1
  obtain ⟨o2, h2, e2⟩ := linear_eq_sum in_size out_size BLOCK_SIZE_IN BLOCK_SIZE_OUT
    hBI hBO hin hout input o1 weight bias temp2
  refine ⟨o1, o2, h1, h2, ?_⟩
  intro i hi
  exact ⟨e2 i hi, by rw [e1 i hi, e2 i hi]⟩

/-- C4, amended, on the counterexample's input: the second run leaves what the first
run left. -/
theorem linear_twice_same_as_once_witness :
    (0 < 1 ∧ 1 % 1 = 0) ∧
    ∃ o1 o2,
      linear 1 1 1 1 (vec [3]) (fun _ => 0) (mat [[2]]) (vec [1]) (vec [] : Nat → Int)
        = Except.ok o1 ∧
      linear 1 1 1 1 (vec [3]) o1 (mat [[2]]) (vec [1]) (vec [] : Nat → Int) = Except.ok o2 ∧
      ∀ i, i < 1 →
        o2 i = (vec [1] : Nat → Int) i
          + ∑ j in Finset.range 1, (mat [[2]] : Nat → Nat → Int) i j * (vec [3] : Nat → Int) j ∧
        o2 i = o1 i :=
  ⟨by decide,
    linear_twice_same_as_once 1 1 1 1 (by decide) (by decide) (by decide) (by decide)
      (vec [3]) (fun _ => 0) (mat [[2]]) (vec [1]) (vec []) (vec [])⟩

theorem tile_dot_one [Zero T] [Add T] [Mul T] (h0 : ∀ a : T, 0 + a = a) (x j : Nat)
    (input : Nat → T) (weight : Nat → Nat → T) :
    tile_dot 1 x j input weight = weight x j * input j := by
  show (0 : T) + weight x (j + 0) * input (j + 0) = _
  rw [h0, Nat.add_zero]

theorem block_fold_one [Zero T] [Add T] [Mul T] (h0 : ∀ a : T, 0 + a = a) (n x : Nat)
    (input : Nat → T) (weight : Nat → Nat → T) (bias : Nat → T) :
    block_fold n 1 x input weight (bias x) = naive_scalar n x input weight bias := by
  induction n with
  | zero => rfl
  | succ n ih =>
    show block_fold n 1 x input weight (bias x) + tile_dot 1 x (n * 1) input weight
      = naive_scalar n x input weight bias + weight x n * input n
    rw [ih, tile_dot_one h0, Nat.mul_one]

/-- C5: with `BLOCK_SIZE_IN = BLOCK_SIZE_OUT = 1`, for every `in_size`, `out_size`, input,
weight and bias, `linear` returns and `output[i]` is the result of the naive scalar
algorithm `acc = bias[i]; acc = acc + weight[i][j] * input[j]` (`j` increasing), term
for term in the same order, for every `i < out_size`; of the scalar type only
`0 + a = a` is assumed. -/
theorem linear_block_one_is_naive [Zero T] [Add T] [Mul T] (h0 : ∀ a : T, 0 + a = a)
    (in_size out_size : Nat) (input output : Nat → T) (weight : Nat → Nat → T)
    (bias temp_sum : Nat → T) :
    ∃ out, linear in_size out_size 1 1 input output weight bias temp_sum = Except.ok out ∧
      ∀ i, i < out_size → out i = naive_scalar in_size i input weight bias := by
  obtain ⟨out, h1, e1⟩ := linear_eq_block_fold in_size out_size 1 1 Nat.one_pos Nat.one_pos
    (Nat.mod_one in_size) (Nat.mod_one out_size) input output weight bias temp_sum
  refine ⟨out, h1, ?_⟩
  intro i hi
  rw [e1 i, if_pos hi, Nat.div_one, block_fold_one h0]

/-- C5, the concrete scenario: `in_size = out_size = 2`, block sizes `1`, the identity
weight, `input = [3,4]`, `bias = [1,1]` over the integers give `output = [4, 5]`, the
values of the naive algorithm. -/
theorem linear_block_one_is_naive_witness :
    (∀ a : Int, 0 + a = a) ∧
    readback 2 (linear 2 2 1 1 (vec [3, 4]) (vec []) (mat [[1, 0], [0, 1]]) (vec [1, 1])
      (vec [] : Nat → Int)) = Except.ok [4, 5] ∧
    (List.range 2).map (fun i => naive_scalar 2 i (vec [3, 4]) (mat [[1, 0], [0, 1]])
      (vec [1, 1] : Nat → Int)) = [4, 5] ∧
    ∃ out, linear 2 2 1 1 (vec [3, 4]) (vec []) (mat [[1, 0], [0, 1]]) (vec [1, 1])
        (vec [] : Nat → Int) = Except.ok out ∧
      ∀ i, i < 2 → out i = naive_scalar 2 i (vec [3, 4]) (mat [[1, 0], [0, 1]])
        (vec [1, 1] : Nat → Int) :=
  ⟨Int.zero_add, rfl, rfl,
    linear_block_one_is_naive Int.zero_add 2 2 (vec [3, 4]) (vec [])
      (mat [[1, 0], [0, 1]]) (vec [1, 1]) (vec [])⟩

/-! ## Channels -/

theorem forUpTo_write {α : Type} (g : Nat → α) (n : Nat) (s : HlsStream α) :
    forUpTo n (fun k st => st.write (g k)) s
      = { fifo := s.fifo ++ (List.range n).map g, writes := s.writes + n, reads := s.reads } := by
  induction n with
  | zero => simp [forUpTo]
  | succ n ih =>
    show (forUpTo n (fun k st => st.write (g k)) s).write (g n) = _
    rw [ih]
    simp [HlsStream.write, List.range_succ, Nat.add_assoc]

theorem forUpTo_write_nested {α : Type} (g : Nat → Nat → α) (a b : Nat) (s : HlsStream α) :
    forUpTo a (fun i st => forUpTo b (fun j st1 => st1.write (g i j)) st) s
      = { fifo := s.fifo ++ (List.range (a * b)).map (fun p => g (p / b) (p % b)),
          writes := s.writes + a * b, reads := s.reads } := by
  induction a with
  | zero => simp [forUpTo]
  | succ a ih =>
    show forUpTo b (fun j st1 => st1.write (g a j)) (forUpTo a _ s) = _
    rw [ih, forUpTo_write]
    have e : (a + 1) * b = a * b + b := by ring
    have hmap : (List.range b).map ((fun p => g (p / b) (p % b)) ∘ (fun j => a * b + j))
        = (List.range b).map (g a) := by
      apply List.map_congr_left
      intro j hj
      have hjb : j < b := List.mem_range.1 hj
      have hb : 0 < b := by omega
      have h1 : (a * b + j) / b = a := by
        rw [Nat.add_comm, Nat.add_mul_div_right _ _ hb, Nat.div_eq_of_lt hjb, Nat.zero_add]
      have h2 : (a * b + j) % b = j := by
        rw [Nat.add_comm, Nat.add_mul_mod_self_right, Nat.mod_eq_of_lt hjb]
      show g ((a * b + j) / b) ((a * b + j) % b) = g a j
      rw [h1, h2]
    rw [e, List.range_add, List.map_append, List.map_map, hmap]
    simp [Nat.add_assoc]

theorem forUpToM_succ {σ : Type} (body : Nat → σ → Except Fault σ) (n : Nat) (s : σ) :
    forUpToM (n + 1) body s
      = match forUpToM n body s with
        | Except.error e => Except.error e
        | Except.ok s1 => body n s1 := rfl

theorem forUpToM_add {σ : Type} (f : σ → Except Fault σ) (m n : Nat) (s : σ) :
    forUpToM (m + n) (fun _ => f) s
      = match forUpToM m (fun _ => f) s with
        | Except.error e => Except.error e
        | Except.ok s1 => forUpToM n (fun _ => f) s1 := by
  induction n with
  | zero =>
    show forUpToM m (fun _ => f) s = _
    cases forUpToM m (fun _ => f) s <;> rfl
  | succ n ih =>
    show (match forUpToM (m + n) (fun _ => f) s with
      | Except.error e => Except.error e
      | Except.ok s1 => f s1) = _
    rw [ih]
    cases forUpToM m (fun _ => f) s <;> rfl

theorem forUpToM_nested {σ : Type} (f : σ → Except Fault σ) (a b : Nat) (s : σ) :
    forUpToM a (fun _ st => forUpToM b (fun _ => f) st) s = forUpToM (a * b) (fun _ => f) s := by
  induction a with
  | zero => simp [forUpToM]
  | succ a ih =>
    have e : (a + 1) * b = a * b + b := by ring
    show (match forUpToM a (fun _ st => forUpToM b (fun _ => f) st) s with
      | Except.error e => Except.error e
      | Except.ok s1 => forUpToM b (fun _ => f) s1) = _
    rw [e, forUpToM_add f (a * b) b, ih]

theorem forUpToM_succ_front {σ : Type} (f : σ → Except Fault σ) (n : Nat) (s : σ) :
    forUpToM (n + 1) (fun _ => f) s
      = match f s with
        | Except.error e => Except.error e
        | Except.ok s1 => forUpToM n (fun _ => f) s1 := by
  have h := forUpToM_add f 1 n s
  rw [Nat.add_comm] at h
  rw [h]
  show (match (match Except.ok s with
      | Except.error e => Except.error e
      | Except.ok s1 => f s1) with
    | Except.error e => Except.error e
    | Except.ok s1 => forUpToM n (fun _ => f) s1) = _
  rfl

/-- Running `n` iterations of the compute stage on channels holding at least `n` tiles
each: the `n` leading pairs are consumed and their tile products are pushed, in order. -/
theorem compute_steps [Zero T] [Add T] [Mul T] (BLOCK_SIZE_IN BLOCK_SIZE_OUT : Nat)
    (uninit : Nat → T) :
    ∀ (n : Nat) (xs : List (Nat → T)) (ws : List (Nat → Nat → T)) (s : V2State T),
      s.input_stream.fifo = xs → s.weight_stream.fifo = ws →
      n ≤ xs.length → n ≤ ws.length →
      forUpToM n (fun _ st => compute_step BLOCK_SIZE_IN BLOCK_SIZE_OUT uninit st) s
        = Except.ok
          { input_stream :=
              { fifo := xs.drop n, writes := s.input_stream.writes,
                reads := s.input_stream.reads + n }
            weight_stream :=
              { fifo := ws.drop n, writes := s.weight_stream.writes,
                reads := s.weight_stream.reads + n }
            bias_stream := s.bias_stream
            output_stream_partials :=
              { fifo := s.output_stream_partials.fifo
                  ++ List.zipWith
                      (fun x w => vmm_unrolled_tile BLOCK_SIZE_IN BLOCK_SIZE_OUT x w uninit)
                      (xs.take n) (ws.take n)
                writes := s.output_stream_partials.writes + n
                reads := s.output_stream_partials.reads }
            output := s.output } := by
  intro n
  induction n with
  | zero =>
    intro xs ws s hx hw _ _
    subst hx
    subst hw
    simp [forUpToM]
  | succ n ih =>
    intro xs ws s hx hw hxl hwl
    cases xs with
    | nil => simp at hxl
    | cons x xs1 =>
      cases ws with
      | nil => simp at hwl
      | cons w ws1 =>
        rw [forUpToM_succ_front]
        have hstep : compute_step BLOCK_SIZE_IN BLOCK_SIZE_OUT uninit s
            = Except.ok { s with
                input_stream :=
                  { fifo := xs1, writes := s.input_stream.writes,
                    reads := s.input_stream.reads + 1 }
                weight_stream :=
                  { fifo := ws1, writes := s.weight_stream.writes,
                    reads := s.weight_stream.reads + 1 }
                output_stream_partials :=
                  s.output_stream_partials.write
                    (vmm_unrolled_tile BLOCK_SIZE_IN BLOCK_SIZE_OUT x w uninit) } := by
          simp [compute_step, HlsStream.read, hx, hw]
        rw [hstep]
        simp only []
        rw [ih xs1 ws1 _ rfl rfl (by simpa using hxl) (by simpa using hwl)]
        simp [HlsStream.write, Nat.add_assoc, Nat.add_comm 1 n]

theorem input_chunk_apply (BLOCK_SIZE_IN i : Nat) (input uninit : Nat → T) (j : Nat) :
    input_chunk BLOCK_SIZE_IN i input uninit j
      = if j < BLOCK_SIZE_IN then input (i * BLOCK_SIZE_IN + j) else uninit j :=
  forUpTo_update_self (fun j _ => input (i * BLOCK_SIZE_IN + j)) BLOCK_SIZE_IN uninit j

theorem bias_chunk_apply (BLOCK_SIZE_OUT i : Nat) (bias uninit : Nat → T) (j : Nat) :
    bias_chunk BLOCK_SIZE_OUT i bias uninit j
      = if j < BLOCK_SIZE_OUT then bias (i * BLOCK_SIZE_OUT + j) else uninit j :=
  forUpTo_update_self (fun j _ => bias (i * BLOCK_SIZE_OUT + j)) BLOCK_SIZE_OUT uninit j

theorem forUpTo_update_row {α : Type} (k : Nat) (v : Nat → α) (n : Nat) (c : Nat → Nat → α) :
    forUpTo n (fun l c1 => Function.update c1 k (Function.update (c1 k) l (v l))) c
      = Function.update c k (forUpTo n (fun l row => Function.update row l (v l)) (c k)) := by
  induction n with
  | zero => simp [forUpTo]
  | succ n ih =>
    show Function.update (forUpTo n _ c) k (Function.update (forUpTo n _ c k) n (v n)) = _
    rw [ih]
    simp [forUpTo]

theorem weight_chunk_apply (BLOCK_SIZE_IN BLOCK_SIZE_OUT i j : Nat)
    (weight uninit2 : Nat → Nat → T) (k l : Nat) :
    weight_chunk BLOCK_SIZE_IN BLOCK_SIZE_OUT i j weight uninit2 k l
      = if k < BLOCK_SIZE_OUT ∧ l < BLOCK_SIZE_IN then
          weight (i * BLOCK_SIZE_OUT + k) (j * BLOCK_SIZE_IN + l)
        else uninit2 k l := by
  unfold weight_chunk
  simp only [forUpTo_update_row]
  rw [forUpTo_update_self
    (fun k row => forUpTo BLOCK_SIZE_IN
      (fun l r => Function.update r l (weight (i * BLOCK_SIZE_OUT + k) (j * BLOCK_SIZE_IN + l)))
      row) BLOCK_SIZE_OUT uninit2 k]
  by_cases hk : k < BLOCK_SIZE_OUT
  · rw [if_pos hk,
      forUpTo_update_self
        (fun l _ => weight (i * BLOCK_SIZE_OUT + k) (j * BLOCK_SIZE_IN + l))
        BLOCK_SIZE_IN (uninit2 k) l]
    by_cases hl : l < BLOCK_SIZE_IN
    · rw [if_pos hl, if_pos ⟨hk, hl⟩]
    · rw [if_neg hl, if_neg (fun h => hl h.2)]
  · rw [if_neg hk, if_neg (fun h => hk h.1)]

/-- The tile product reads its tiles only inside the tile. -/
theorem vmm_row_congr [Zero T] [Add T] [Mul T] (DIM_IN i : Nat) (x x' : Nat → T)
    (w w' : Nat → Nat → T) (hx : ∀ j, j < DIM_IN → x j = x' j)
    (hw : ∀ j, j < DIM_IN → w i j = w' i j) :
    vmm_row DIM_IN i x w = vmm_row DIM_IN i x' w' := by
  unfold vmm_row
  apply forUpTo_congr
  intro j hj acc
  rw [hx j hj, hw j hj]

/-! ## What `linear_v2` computes -/

theorem input_stream_producer_eq (n_chunks_in n_chunks_out BLOCK_SIZE_IN : Nat)
    (input uninit : Nat → T) :
    input_stream_producer n_chunks_in n_chunks_out BLOCK_SIZE_IN input uninit HlsStream.empty
      = { fifo := input_tiles n_chunks_in n_chunks_out BLOCK_SIZE_IN input uninit,
          writes := n_chunks_in * n_chunks_out, reads := 0 } := by
  unfold input_stream_producer
  rw [forUpTo_write_nested (fun i _ => input_chunk BLOCK_SIZE_IN i input uninit)]
  simp [HlsStream.empty, input_tiles]

theorem weight_stream_producer_eq (n_chunks_in n_chunks_out BLOCK_SIZE_IN BLOCK_SIZE_OUT : Nat)
    (weight uninit2 : Nat → Nat → T) :
    weight_stream_producer n_chunks_in n_chunks_out BLOCK_SIZE_IN BLOCK_SIZE_OUT weight uninit2
        HlsStream.empty
      = { fifo := weight_tiles n_chunks_in n_chunks_out BLOCK_SIZE_IN BLOCK_SIZE_OUT weight
            uninit2,
          writes := n_chunks_out * n_chunks_in, reads := 0 } := by
  unfold weight_stream_producer
  rw [forUpTo_write_nested
    (fun i j => weight_chunk BLOCK_SIZE_IN BLOCK_SIZE_OUT i j weight uninit2)]
  simp [HlsStream.empty, weight_tiles]

theorem bias_stream_producer_eq (n_chunks_out BLOCK_SIZE_OUT : Nat) (bias uninit : Nat → T) :
    bias_stream_producer n_chunks_out BLOCK_SIZE_OUT bias uninit HlsStream.empty
      = { fifo := bias_tiles n_chunks_out BLOCK_SIZE_OUT bias uninit,
          writes := n_chunks_out, reads := 0 } := by
  unfold bias_stream_producer
  rw [forUpTo_write (fun i => bias_chunk BLOCK_SIZE_OUT i bias uninit)]
  simp [HlsStream.empty, bias_tiles]

theorem length_input_tiles (n_chunks_in n_chunks_out BLOCK_SIZE_IN : Nat)
    (input uninit : Nat → T) :
    (input_tiles n_chunks_in n_chunks_out BLOCK_SIZE_IN input uninit).length
      = n_chunks_in * n_chunks_out := by
  simp [input_tiles]

theorem length_weight_tiles (n_chunks_in n_chunks_out BLOCK_SIZE_IN BLOCK_SIZE_OUT : Nat)
    (weight uninit2 : Nat → Nat → T) :
    (weight_tiles n_chunks_in n_chunks_out BLOCK_SIZE_IN BLOCK_SIZE_OUT weight uninit2).length
      = n_chunks_out * n_chunks_in := by
  simp [weight_tiles]

theorem length_bias_tiles (n_chunks_out BLOCK_SIZE_OUT : Nat) (bias uninit : Nat → T) :
    (bias_tiles n_chunks_out BLOCK_SIZE_OUT bias uninit).length = n_chunks_out := by
  simp [bias_tiles]

theorem length_partial_tiles [Zero T] [Add T] [Mul T]
    (n_chunks_in n_chunks_out BLOCK_SIZE_IN BLOCK_SIZE_OUT : Nat)
    (input : Nat → T) (weight : Nat → Nat → T) (uninit : Nat → T) (uninit2 : Nat → Nat → T) :
    (partial_tiles n_chunks_in n_chunks_out BLOCK_SIZE_IN BLOCK_SIZE_OUT input weight uninit
      uninit2).length = n_chunks_out * n_chunks_in := by
  simp [partial_tiles, length_input_tiles, length_weight_tiles, Nat.mul_comm]

/-- The state of `linear_v2` between the compute stage and the finalize loop: the compute
stage returns, `input_stream` and `weight_stream` are drained, and
`output_stream_partials` holds the `n_chunks_out * n_chunks_in` tile products. -/
theorem compute_stage_eq [Zero T] [Add T] [Mul T]
    (n_chunks_in n_chunks_out BLOCK_SIZE_IN BLOCK_SIZE_OUT : Nat)
    (input output : Nat → T) (weight : Nat → Nat → T) (bias uninit : Nat → T)
    (uninit2 : Nat → Nat → T) :
    compute_stage n_chunks_in n_chunks_out BLOCK_SIZE_IN BLOCK_SIZE_OUT uninit
        { input_stream :=
            input_stream_producer n_chunks_in n_chunks_out BLOCK_SIZE_IN input uninit
              HlsStream.empty
          weight_stream :=
            weight_stream_producer n_chunks_in n_chunks_out BLOCK_SIZE_IN BLOCK_SIZE_OUT
              weight uninit2 HlsStream.empty
          bias_stream := bias_stream_producer n_chunks_out BLOCK_SIZE_OUT bias uninit
            HlsStream.empty
          output_stream_partials := HlsStream.empty
          output := output }
      = Except.ok
        { input_stream :=
            { fifo := [], writes := n_chunks_in * n_chunks_out,
              reads := n_chunks_out * n_chunks_in }
          weight_stream :=
            { fifo := [], writes := n_chunks_out * n_chunks_in,
              reads := n_chunks_out * n_chunks_in }
          bias_stream :=
            { fifo := bias_tiles n_chunks_out BLOCK_SIZE_OUT bias uninit,
              writes := n_chunks_out, reads := 0 }
          output_stream_partials :=
            { fifo := partial_tiles n_chunks_in n_chunks_out BLOCK_SIZE_IN BLOCK_SIZE_OUT
                input weight uninit uninit2,
              writes := n_chunks_out * n_chunks_in, reads := 0 }
          output := output } := by
  unfold compute_stage
  rw [forUpToM_nested (compute_step BLOCK_SIZE_IN BLOCK_SIZE_OUT uninit),
    input_stream_producer_eq, weight_stream_producer_eq, bias_stream_producer_eq]
  have h := compute_steps BLOCK_SIZE_IN BLOCK_SIZE_OUT uninit (n_chunks_out * n_chunks_in)
    (input_tiles n_chunks_in n_chunks_out BLOCK_SIZE_IN input uninit)
    (weight_tiles n_chunks_in n_chunks_out BLOCK_SIZE_IN BLOCK_SIZE_OUT weight uninit2)
    { input_stream :=
        { fifo := input_tiles n_chunks_in n_chunks_out BLOCK_SIZE_IN input uninit,
          writes := n_chunks_in * n_chunks_out, reads := 0 }
      weight_stream :=
        { fifo := weight_tiles n_chunks_in n_chunks_out BLOCK_SIZE_IN BLOCK_SIZE_OUT weight
            uninit2,
          writes := n_chunks_out * n_chunks_in, reads := 0 }
      bias_stream :=
        { fifo := bias_tiles n_chunks_out BLOCK_SIZE_OUT bias uninit,
          writes := n_chunks_out, reads := 0 }
      output_stream_partials := HlsStream.empty
      output := output } rfl rfl
    (by rw [length_input_tiles, Nat.mul_comm]) (by rw [length_weight_tiles])
  have hx : (input_tiles n_chunks_in n_chunks_out BLOCK_SIZE_IN input uninit).length
      ≤ n_chunks_out * n_chunks_in := by rw [length_input_tiles, Nat.mul_comm]
  have hw : (weight_tiles n_chunks_in n_chunks_out BLOCK_SIZE_IN BLOCK_SIZE_OUT weight
      uninit2).length ≤ n_chunks_out * n_chunks_in := by rw [length_weight_tiles]
  rw [List.drop_eq_nil_of_le hx, List.drop_eq_nil_of_le hw, List.take_of_length_le hx,
    List.take_of_length_le hw] at h
  simpa [HlsStream.empty, partial_tiles] using h

theorem static_asserts_pass (in_size out_size BLOCK_SIZE_IN BLOCK_SIZE_OUT : Nat)
    (hBI : 0 < BLOCK_SIZE_IN) (hBO : 0 < BLOCK_SIZE_OUT)
    (hin : in_size % BLOCK_SIZE_IN = 0) (hout : out_size % BLOCK_SIZE_OUT = 0) :
    static_assert_divisible in_size BLOCK_SIZE_IN = true ∧
    static_assert_divisible out_size BLOCK_SIZE_OUT = true :=
  ⟨(static_assert_divisible_iff _ _).2 ⟨Nat.pos_iff_ne_zero.1 hBI, hin⟩,
   (static_assert_divisible_iff _ _).2 ⟨Nat.pos_iff_ne_zero.1 hBO, hout⟩⟩

theorem partial_tiles_getD [Zero T] [Add T] [Mul T]
    (n_chunks_in n_chunks_out BLOCK_SIZE_IN BLOCK_SIZE_OUT : Nat)
    (input : Nat → T) (weight : Nat → Nat → T) (uninit : Nat → T) (uninit2 : Nat → Nat → T)
    (c : Nat) (hc : c < n_chunks_out * n_chunks_in) (z : Nat → T) :
    (partial_tiles n_chunks_in n_chunks_out BLOCK_SIZE_IN BLOCK_SIZE_OUT input weight uninit
        uninit2).getD c z
      = vmm_unrolled_tile BLOCK_SIZE_IN BLOCK_SIZE_OUT
          (input_chunk BLOCK_SIZE_IN (c / n_chunks_out) input uninit)
          (weight_chunk BLOCK_SIZE_IN BLOCK_SIZE_OUT (c / n_chunks_in) (c % n_chunks_in)
            weight uninit2) uninit := by
  have hl : c < (partial_tiles n_chunks_in n_chunks_out BLOCK_SIZE_IN BLOCK_SIZE_OUT
      input weight uninit uninit2).length := by
    rw [length_partial_tiles]
    exact hc
  rw [List.getD_eq_getElem _ _ hl]
  simp [partial_tiles, input_tiles, weight_tiles]

theorem tile_index_bijOn (size BLOCK_SIZE : Nat) (hB : 0 < BLOCK_SIZE)
    (hdiv : size % BLOCK_SIZE = 0) :
    Set.BijOn (fun p : Nat × Nat => tile_index BLOCK_SIZE p.1 p.2)
      (Set.Iio (n_chunks size BLOCK_SIZE) ×ˢ Set.Iio BLOCK_SIZE) (Set.Iio size) := by
  have e : n_chunks size BLOCK_SIZE * BLOCK_SIZE = size :=
    Nat.div_mul_cancel (Nat.dvd_of_mod_eq_zero hdiv)
  refine ⟨?_, ?_, ?_⟩
  · rintro ⟨c, o⟩ ⟨hc, ho⟩
    simp only [Set.mem_Iio] at hc ho ⊢
    show c * BLOCK_SIZE + o < size
    have h1 : (c + 1) * BLOCK_SIZE ≤ n_chunks size BLOCK_SIZE * BLOCK_SIZE :=
      Nat.mul_le_mul_right _ hc
    have h2 : (c + 1) * BLOCK_SIZE = c * BLOCK_SIZE + BLOCK_SIZE := by ring
    omega
  · rintro ⟨c, o⟩ ⟨_, ho⟩ ⟨c', o'⟩ ⟨_, ho'⟩ h
    simp only [Set.mem_Iio] at ho ho'
    have h' : c * BLOCK_SIZE + o = c' * BLOCK_SIZE + o' := h
    have hc : c = c' := by
      have d1 : (c * BLOCK_SIZE + o) / BLOCK_SIZE = c := by
        rw [Nat.add_comm, Nat.add_mul_div_right _ _ hB, Nat.div_eq_of_lt ho, Nat.zero_add]
      have d2 : (c' * BLOCK_SIZE + o') / BLOCK_SIZE = c' := by
        rw [Nat.add_comm, Nat.add_mul_div_right _ _ hB, Nat.div_eq_of_lt ho', Nat.zero_add]
      rw [← d1, ← d2, h']
    subst hc
    have ho2 : o = o' := by omega
    rw [ho2]
  · intro x hx
    simp only [Set.mem_Iio] at hx
    refine ⟨(x / BLOCK_SIZE, x % BLOCK_SIZE), ⟨?_, ?_⟩, ?_⟩
    · show x / BLOCK_SIZE < n_chunks size BLOCK_SIZE
      rw [Nat.div_lt_iff_lt_mul hB, e]
      exact hx
    · exact Nat.mod_lt x hB
    · show x / BLOCK_SIZE * BLOCK_SIZE + x % BLOCK_SIZE = x
      rw [Nat.mul_comm]
      exact Nat.div_add_mod x BLOCK_SIZE

/-- C10: for positive block sizes with exact divisibility,
`n_chunks_in = in_size / BLOCK_SIZE_IN` and `n_chunks_out = out_size / BLOCK_SIZE_OUT`
satisfy `n_chunks_in * BLOCK_SIZE_IN = in_size` and
`n_chunks_out * BLOCK_SIZE_OUT = out_size`; in each dimension `(c, o) ↦ c * BLOCK + o` is
a bijection from `[0, n_chunks) × [0, BLOCK)` onto `[0, size)`; hence every weight entry
`(r, c)` lies in exactly one tile `(i, j)`, at exactly one position `(k, l)` of it. -/
theorem tile_geometry (in_size out_size BLOCK_SIZE_IN BLOCK_SIZE_OUT : Nat)
    (hBI : 0 < BLOCK_SIZE_IN) (hBO : 0 < BLOCK_SIZE_OUT)
    (hin : in_size % BLOCK_SIZE_IN = 0) (hout : out_size % BLOCK_SIZE_OUT = 0) :
    n_chunks in_size BLOCK_SIZE_IN * BLOCK_SIZE_IN = in_size ∧
    n_chunks out_size BLOCK_SIZE_OUT * BLOCK_SIZE_OUT = out_size ∧
    Set.BijOn (fun p : Nat × Nat => tile_index BLOCK_SIZE_IN p.1 p.2)
      (Set.Iio (n_chunks in_size BLOCK_SIZE_IN) ×ˢ Set.Iio BLOCK_SIZE_IN) (Set.Iio in_size) ∧
    Set.BijOn (fun p : Nat × Nat => tile_index BLOCK_SIZE_OUT p.1 p.2)
      (Set.Iio (n_chunks out_size BLOCK_SIZE_OUT) ×ˢ Set.Iio BLOCK_SIZE_OUT)
      (Set.Iio out_size) ∧
    (∀ r c, r < out_size → c < in_size →
      ∃! q : (Nat × Nat) × (Nat × Nat),
        (q.1.1 < n_chunks out_size BLOCK_SIZE_OUT ∧ q.1.2 < BLOCK_SIZE_OUT ∧
          tile_index BLOCK_SIZE_OUT q.1.1 q.1.2 = r) ∧
        (q.2.1 < n_chunks in_size BLOCK_SIZE_IN ∧ q.2.2 < BLOCK_SIZE_IN ∧
          tile_index BLOCK_SIZE_IN q.2.1 q.2.2 = c)) := by
  have bin := tile_index_bijOn in_size BLOCK_SIZE_IN hBI hin
  have bout := tile_index_bijOn out_size BLOCK_SIZE_OUT hBO hout
  refine ⟨Nat.div_mul_cancel (Nat.dvd_of_mod_eq_zero hin),
    Nat.div_mul_cancel (Nat.dvd_of_mod_eq_zero hout), bin, bout, ?_⟩
  intro r c hr hc
  obtain ⟨⟨i, k⟩, ⟨hi, hk⟩, hik⟩ := bout.surjOn (Set.mem_Iio.2 hr)
  obtain ⟨⟨j, l⟩, ⟨hj, hl⟩, hjl⟩ := bin.surjOn (Set.mem_Iio.2 hc)
  refine ⟨((i, k), (j, l)), ⟨⟨hi, hk, hik⟩, ⟨hj, hl, hjl⟩⟩, ?_⟩
  rintro ⟨⟨i', k'⟩, ⟨j', l'⟩⟩ ⟨⟨hi', hk', hik'⟩, ⟨hj', hl', hjl'⟩⟩
  have e1 : ((i', k') : Nat × Nat) = (i, k) :=
    bout.injOn ⟨hi', hk'⟩ ⟨hi, hk⟩ (hik'.trans hik.symm)
  have e2 : ((j', l') : Nat × Nat) = (j, l) :=
    bin.injOn ⟨hj', hl'⟩ ⟨hj, hl⟩ (hjl'.trans hjl.symm)
  rw [e1, e2]

/-- C10 at `in_size = 4`, `out_size = 2`, `BLOCK_SIZE_IN = 2`, `BLOCK_SIZE_OUT = 1`: two
input tiles and two output tiles. -/
theorem tile_geometry_witness :
    (0 < 2 ∧ 0 < 1 ∧ 4 % 2 = 0 ∧ 2 % 1 = 0) ∧
    (n_chunks 4 2 = 2 ∧ n_chunks 2 1 = 2) ∧
    n_chunks 4 2 * 2 = 4 ∧
    n_chunks 2 1 * 1 = 2 ∧
    Set.BijOn (fun p : Nat × Nat => tile_index 2 p.1 p.2)
      (Set.Iio (n_chunks 4 2) ×ˢ Set.Iio 2) (Set.Iio 4) ∧
    Set.BijOn (fun p : Nat × Nat => tile_index 1 p.1 p.2)
      (Set.Iio (n_chunks 2 1) ×ˢ Set.Iio 1) (Set.Iio 2) ∧
    (∀ r c, r < 2 → c < 4 →
      ∃! q : (Nat × Nat) × (Nat × Nat),
        (q.1.1 < n_chunks 2 1 ∧ q.1.2 < 1 ∧ tile_index 1 q.1.1 q.1.2 = r) ∧
        (q.2.1 < n_chunks 4 2 ∧ q.2.2 < 2 ∧ tile_index 2 q.2.1 q.2.2 = c)) :=
  ⟨by decide, by decide,
    tile_geometry 4 2 2 1 (by decide) (by decide) (by decide) (by decide)⟩

/-! ## Claims on the order of the additions and on the stages of `linear_v2` -/

theorem forUpTo_add_eq_foldl {α : Type} [Add α] (f : Nat → α) (n : Nat) (a : α) :
    forUpTo n (fun d acc => acc + f d) a = (List.range n).foldl (fun acc d => acc + f d) a := by
  induction n with
  | zero => rfl
  | succ n ih =>
    show forUpTo n (fun d acc => acc + f d) a + f n = _
    rw [ih, List.range_succ, List.foldl_append]
    rfl

theorem block_fold_eq_foldl [Zero T] [Add T] [Mul T] (n BLOCK_SIZE_IN x : Nat)
    (input : Nat → T) (weight : Nat → Nat → T) (start : T) :
    block_fold n BLOCK_SIZE_IN x input weight start
      = (List.range n).foldl
          (fun acc d => acc + (List.range BLOCK_SIZE_IN).foldl
            (fun s l => s + weight x (d * BLOCK_SIZE_IN + l) * input (d * BLOCK_SIZE_IN + l)) 0)
          start := by
  unfold block_fold
  rw [forUpTo_add_eq_foldl
    (fun d => tile_dot BLOCK_SIZE_IN x (d * BLOCK_SIZE_IN) input weight)]
  have h : ∀ d, tile_dot BLOCK_SIZE_IN x (d * BLOCK_SIZE_IN) input weight
      = (List.range BLOCK_SIZE_IN).foldl
          (fun s l => s + weight x (d * BLOCK_SIZE_IN + l) * input (d * BLOCK_SIZE_IN + l)) 0 := by
    intro d
    unfold tile_dot
    exact forUpTo_add_eq_foldl
      (fun l => weight x (d * BLOCK_SIZE_IN + l) * input (d * BLOCK_SIZE_IN + l))
      BLOCK_SIZE_IN 0
  simp only [h]

/-- C11: the accumulation order of `linear`.  On a valid configuration and for a scalar
type with no algebraic law (abstract `+`, `*`, `0`), `linear` returns and, for `a` a
multiple of `BLOCK_SIZE_OUT` and `k < BLOCK_SIZE_OUT`, `output[a + k]` is the left-nested
fold that starts from `bias[a + k]` and adds on the right, for the input blocks
`b = d * BLOCK_SIZE_IN`, `d = 0, 1, ...` in increasing order, the block partial sum
`S_b`; `S_b` is the left-nested fold that starts from `0` and adds
`weight[a + k][b + l] * input[b + l]` for `l = 0, ..., BLOCK_SIZE_IN - 1` in increasing
order.  Bias is the first term and no product is added to the output directly. -/
theorem linear_accumulation_order [Zero T] [Add T] [Mul T]
    (in_size out_size BLOCK_SIZE_IN BLOCK_SIZE_OUT : Nat)
    (hBI : 0 < BLOCK_SIZE_IN) (hBO : 0 < BLOCK_SIZE_OUT)
    (hin : in_size % BLOCK_SIZE_IN = 0) (hout : out_size % BLOCK_SIZE_OUT = 0)
    (input output : Nat → T) (weight : Nat → Nat → T) (bias temp_sum : Nat → T) :
    ∃ out, linear in_size out_size BLOCK_SIZE_IN BLOCK_SIZE_OUT input output weight bias temp_sum
        = Except.ok out ∧
      ∀ a k, a % BLOCK_SIZE_OUT = 0 → k < BLOCK_SIZE_OUT → a + k < out_size →
        out (a + k)
          = (List.range (in_size / BLOCK_SIZE_IN)).foldl
              (fun acc d => acc + (List.range BLOCK_SIZE_IN).foldl
                (fun s l => s + weight (a + k) (d * BLOCK_SIZE_IN + l)
                  * input (d * BLOCK_SIZE_IN + l)) 0)
              (bias (a + k)) := by
  obtain ⟨out, h1, e1⟩ := linear_eq_block_fold in_size out_size BLOCK_SIZE_IN BLOCK_SIZE_OUT
    hBI hBO hin hout input output weight bias temp_sum
  refine ⟨out, h1, ?_⟩
  intro a k _ _ hx
  rw [e1 (a + k), if_pos hx, block_fold_eq_foldl]

/-- C11 on the scenario of C1 (`in_size = 4`, `BLOCK_SIZE_IN = 2`, `out_size = 2`,
`BLOCK_SIZE_OUT = 1`): `output[1] = ((0 + (0 + 5*1 + 6*1)) + (0 + 7*1 + 8*1)) = 26`. -/
theorem linear_accumulation_order_witness :
    (0 < 2 ∧ 0 < 1 ∧ 4 % 2 = 0 ∧ 2 % 1 = 0) ∧
    (List.range (4 / 2)).foldl
      (fun acc d => acc + (List.range 2).foldl
        (fun s l => s + (mat [[1, 2, 3, 4], [5, 6, 7, 8]] : Nat → Nat → Int) (1 + 0) (d * 2 + l)
          * (vec [1, 1, 1, 1] : Nat → Int) (d * 2 + l)) 0)
      ((vec [0, 0] : Nat → Int) (1 + 0)) = 26 ∧
    ∃ out, linear 4 2 2 1 (vec [1, 1, 1, 1]) (vec [])
        (mat [[1, 2, 3, 4], [5, 6, 7, 8]]) (vec [0, 0]) (vec [] : Nat → Int) = Except.ok out ∧
      ∀ a k, a % 1 = 0 → k < 1 → a + k < 2 →
        out (a + k)
          = (List.range (4 / 2)).foldl
              (fun acc d => acc + (List.range 2).foldl
                (fun s l => s + (mat [[1, 2, 3, 4], [5, 6, 7, 8]] : Nat → Nat → Int) (a + k)
                    (d * 2 + l)
                  * (vec [1, 1, 1, 1] : Nat → Int) (d * 2 + l)) 0)
              ((vec [0, 0] : Nat → Int) (a + k)) :=
  ⟨by decide, rfl,
    linear_accumulation_order 4 2 2 1 (by decide) (by decide) (by decide) (by decide)
      (vec [1, 1, 1, 1]) (vec []) (mat [[1, 2, 3, 4], [5, 6, 7, 8]]) (vec [0, 0]) (vec [])⟩

theorem tile_index_lt (n B c o : Nat) (hc : c < n) (ho : o < B) : c * B + o < n * B := by
  have h1 : (c + 1) * B ≤ n * B := Nat.mul_le_mul_right _ hc
  have h2 : (c + 1) * B = c * B + B := by ring
  omega

theorem input_tiles_getElem? (n_chunks_in n_chunks_out BLOCK_SIZE_IN : Nat)
    (input uninit : Nat → T) (p : Nat) (hp : p < n_chunks_in * n_chunks_out) :
    (input_tiles n_chunks_in n_chunks_out BLOCK_SIZE_IN input uninit)[p]?
      = some (input_chunk BLOCK_SIZE_IN (p / n_chunks_out) input uninit) := by
  simp [input_tiles, List.getElem?_range hp]

theorem weight_tiles_getElem? (n_chunks_in n_chunks_out BLOCK_SIZE_IN BLOCK_SIZE_OUT : Nat)
    (weight uninit2 : Nat → Nat → T) (p : Nat) (hp : p < n_chunks_out * n_chunks_in) :
    (weight_tiles n_chunks_in n_chunks_out BLOCK_SIZE_IN BLOCK_SIZE_OUT weight uninit2)[p]?
      = some (weight_chunk BLOCK_SIZE_IN BLOCK_SIZE_OUT (p / n_chunks_in) (p % n_chunks_in)
          weight uninit2) := by
  simp [weight_tiles, List.getElem?_range hp]

/-- C12: the Input Broadcaster of `linear_v2`.  On a valid configuration the sequence of
tiles the first stage writes to `input_stream` has length `n_chunks_in * n_chunks_out`
(as many as the writes counted), and for every position `p` below that the `p`-th tile
is input tile `t = p / n_chunks_out`, that is `tile[j] = input[t * BLOCK_SIZE_IN + j]`
for `j < BLOCK_SIZE_IN`, every index read being below `in_size`: each input tile is
pushed `n_chunks_out` times in a row, tiles in increasing order.  (Exact divisibility
of `in_size` is all that is used of the configuration.) -/
theorem input_broadcaster (in_size out_size BLOCK_SIZE_IN BLOCK_SIZE_OUT : Nat)
    (hin : in_size % BLOCK_SIZE_IN = 0)
    (input uninit : Nat → T) :
    (input_stream_producer (n_chunks in_size BLOCK_SIZE_IN) (n_chunks out_size BLOCK_SIZE_OUT)
        BLOCK_SIZE_IN input uninit HlsStream.empty).fifo.length
      = n_chunks in_size BLOCK_SIZE_IN * n_chunks out_size BLOCK_SIZE_OUT ∧
    (input_stream_producer (n_chunks in_size BLOCK_SIZE_IN) (n_chunks out_size BLOCK_SIZE_OUT)
        BLOCK_SIZE_IN input uninit HlsStream.empty).writes
      = n_chunks in_size BLOCK_SIZE_IN * n_chunks out_size BLOCK_SIZE_OUT ∧
    ∀ p, p < n_chunks in_size BLOCK_SIZE_IN * n_chunks out_size BLOCK_SIZE_OUT →
      ∃ tile,
        (input_stream_producer (n_chunks in_size BLOCK_SIZE_IN)
          (n_chunks out_size BLOCK_SIZE_OUT) BLOCK_SIZE_IN input uninit
          HlsStream.empty).fifo[p]? = some tile ∧
        p / n_chunks out_size BLOCK_SIZE_OUT < n_chunks in_size BLOCK_SIZE_IN ∧
        ∀ j, j < BLOCK_SIZE_IN →
          p / n_chunks out_size BLOCK_SIZE_OUT * BLOCK_SIZE_IN + j < in_size ∧
          tile j = input (p / n_chunks out_size BLOCK_SIZE_OUT * BLOCK_SIZE_IN + j) := by
  rw [input_stream_producer_eq]
  refine ⟨length_input_tiles _ _ _ _ _, rfl, ?_⟩
  intro p hp
  have ein : n_chunks in_size BLOCK_SIZE_IN * BLOCK_SIZE_IN = in_size :=
    Nat.div_mul_cancel (Nat.dvd_of_mod_eq_zero hin)
  have ht : p / n_chunks out_size BLOCK_SIZE_OUT < n_chunks in_size BLOCK_SIZE_IN :=
    Nat.div_lt_of_lt_mul (by rw [Nat.mul_comm]; exact hp)
  refine ⟨_, input_tiles_getElem? _ _ _ _ _ p hp, ht, ?_⟩
  intro j hj
  refine ⟨?_, ?_⟩
  · have h := tile_index_lt _ BLOCK_SIZE_IN _ j ht hj
    rw [ein] at h
    exact h
  · rw [input_chunk_apply, if_pos hj]

/-- C12 at `in_size = 4`, `BLOCK_SIZE_IN = 2`, `out_size = 3`, `BLOCK_SIZE_OUT = 1`,
`input = [1,2,3,4]`: the channel holds `[1,2]` three times, then `[3,4]` three times. -/
theorem input_broadcaster_witness :
    4 % 2 = 0 ∧
    tiles_readback 2 (input_stream_producer (n_chunks 4 2) (n_chunks 3 1) 2
      (vec [1, 2, 3, 4]) (vec [] : Nat → Int) HlsStream.empty).fifo
      = [[1, 2], [1, 2], [1, 2], [3, 4], [3, 4], [3, 4]] ∧
    (input_stream_producer (n_chunks 4 2) (n_chunks 3 1) 2
      (vec [1, 2, 3, 4]) (vec [] : Nat → Int) HlsStream.empty).fifo.length
      = n_chunks 4 2 * n_chunks 3 1 :=
  ⟨by decide, rfl,
    (input_broadcaster 4 3 2 1 (by decide) (vec [1, 2, 3, 4]) (vec [])).1⟩

/-- C13: the Weight Tile Loader of `linear_v2`.  On a valid configuration the sequence of
tiles written to `weight_stream` has length `n_chunks_out * n_chunks_in` (as many as the
writes counted), and for `i < n_chunks_out`, `j < n_chunks_in` the tile at position
`i * n_chunks_in + j` is weight sub-block `(i, j)`:
`tile[k][l] = weight[i * BLOCK_SIZE_OUT + k][j * BLOCK_SIZE_IN + l]` for
`k < BLOCK_SIZE_OUT`, `l < BLOCK_SIZE_IN`, every index read being inside the matrix
(output-major, input-minor order). -/
theorem weight_tile_loader (in_size out_size BLOCK_SIZE_IN BLOCK_SIZE_OUT : Nat)
    (hin : in_size % BLOCK_SIZE_IN = 0) (hout : out_size % BLOCK_SIZE_OUT = 0)
    (weight uninit2 : Nat → Nat → T) :
    (weight_stream_producer (n_chunks in_size BLOCK_SIZE_IN) (n_chunks out_size BLOCK_SIZE_OUT)
        BLOCK_SIZE_IN BLOCK_SIZE_OUT weight uninit2 HlsStream.empty).fifo.length
      = n_chunks out_size BLOCK_SIZE_OUT * n_chunks in_size BLOCK_SIZE_IN ∧
    (weight_stream_producer (n_chunks in_size BLOCK_SIZE_IN) (n_chunks out_size BLOCK_SIZE_OUT)
        BLOCK_SIZE_IN BLOCK_SIZE_OUT weight uninit2 HlsStream.empty).writes
      = n_chunks out_size BLOCK_SIZE_OUT * n_chunks in_size BLOCK_SIZE_IN ∧
    ∀ i j, i < n_chunks out_size BLOCK_SIZE_OUT → j < n_chunks in_size BLOCK_SIZE_IN →
      ∃ tile,
        (weight_stream_producer (n_chunks in_size BLOCK_SIZE_IN)
          (n_chunks out_size BLOCK_SIZE_OUT) BLOCK_SIZE_IN BLOCK_SIZE_OUT weight uninit2
          HlsStream.empty).fifo[i * n_chunks in_size BLOCK_SIZE_IN + j]? = some tile ∧
        ∀ k l, k < BLOCK_SIZE_OUT → l < BLOCK_SIZE_IN →
          i * BLOCK_SIZE_OUT + k < out_size ∧ j * BLOCK_SIZE_IN + l < in_size ∧
          tile k l = weight (i * BLOCK_SIZE_OUT + k) (j * BLOCK_SIZE_IN + l) := by
  rw [weight_stream_producer_eq]
  refine ⟨length_weight_tiles _ _ _ _ _ _, rfl, ?_⟩
  intro i j hi hj
  have ein : n_chunks in_size BLOCK_SIZE_IN * BLOCK_SIZE_IN = in_size :=
    Nat.div_mul_cancel (Nat.dvd_of_mod_eq_zero hin)
  have eout : n_chunks out_size BLOCK_SIZE_OUT * BLOCK_SIZE_OUT = out_size :=
    Nat.div_mul_cancel (Nat.dvd_of_mod_eq_zero hout)
  have hp : i * n_chunks in_size BLOCK_SIZE_IN + j
      < n_chunks out_size BLOCK_SIZE_OUT * n_chunks in_size BLOCK_SIZE_IN :=
    tile_index_lt _ _ i j hi hj
  have hn : 0 < n_chunks in_size BLOCK_SIZE_IN := by omega
  have hdiv : (i * n_chunks in_size BLOCK_SIZE_IN + j) / n_chunks in_size BLOCK_SIZE_IN = i := by
    rw [Nat.add_comm, Nat.add_mul_div_right _ _ hn, Nat.div_eq_of_lt hj, Nat.zero_add]
  have hmod : (i * n_chunks in_size BLOCK_SIZE_IN + j) % n_chunks in_size BLOCK_SIZE_IN = j := by
    rw [Nat.add_comm, Nat.add_mul_mod_self_right, Nat.mod_eq_of_lt hj]
  refine ⟨_, weight_tiles_getElem? _ _ _ _ _ _ _ hp, ?_⟩
  intro k l hk hl
  refine ⟨?_, ?_, ?_⟩
  · have h := tile_index_lt _ BLOCK_SIZE_OUT i k hi hk
    rw [eout] at h
    exact h
  · have h := tile_index_lt _ BLOCK_SIZE_IN j l hj hl
    rw [ein] at h
    exact h
  · rw [weight_chunk_apply, if_pos ⟨hk, hl⟩, hdiv, hmod]

/-- C13 at `in_size = 4`, `BLOCK_SIZE_IN = 2`, `out_size = 2`, `BLOCK_SIZE_OUT = 1`,
`weight = [[1,2,3,4],[5,6,7,8]]`: the channel holds the first rows of the sub-blocks
`(0,0)`, `(0,1)`, `(1,0)`, `(1,1)` in this order. -/
theorem weight_tile_loader_witness :
    (4 % 2 = 0 ∧ 2 % 1 = 0) ∧
    tiles_readback 2 ((weight_stream_producer (n_chunks 4 2) (n_chunks 2 1) 2 1
      (mat [[1, 2, 3, 4], [5, 6, 7, 8]]) (mat [] : Nat → Nat → Int)
      HlsStream.empty).fifo.map (fun w => w 0))
      = [[1, 2], [3, 4], [5, 6], [7, 8]] ∧
    (weight_stream_producer (n_chunks 4 2) (n_chunks 2 1) 2 1
      (mat [[1, 2, 3, 4], [5, 6, 7, 8]]) (mat [] : Nat → Nat → Int)
      HlsStream.empty).fifo.length = n_chunks 2 1 * n_chunks 4 2 :=
  ⟨by decide, rfl,
    (weight_tile_loader 4 2 2 1 (by decide) (by decide)
      (mat [[1, 2, 3, 4], [5, 6, 7, 8]]) (mat [])).1⟩

theorem partial_tiles_getElem? [Zero T] [Add T] [Mul T]
    (n_chunks_in n_chunks_out BLOCK_SIZE_IN BLOCK_SIZE_OUT : Nat)
    (input : Nat → T) (weight : Nat → Nat → T) (uninit : Nat → T) (uninit2 : Nat → Nat → T)
    (p : Nat) (hp : p < n_chunks_out * n_chunks_in) :
    (partial_tiles n_chunks_in n_chunks_out BLOCK_SIZE_IN BLOCK_SIZE_OUT input weight uninit
        uninit2)[p]?
      = some (vmm_unrolled_tile BLOCK_SIZE_IN BLOCK_SIZE_OUT
          (input_chunk BLOCK_SIZE_IN (p / n_chunks_out) input uninit)
          (weight_chunk BLOCK_SIZE_IN BLOCK_SIZE_OUT (p / n_chunks_in) (p % n_chunks_in)
            weight uninit2) uninit) := by
  have hl : p < (partial_tiles n_chunks_in n_chunks_out BLOCK_SIZE_IN BLOCK_SIZE_OUT
      input weight uninit uninit2).length := by
    rw [length_partial_tiles]
    exact hp
  rw [List.getElem?_eq_getElem hl, ← List.getD_eq_getElem _ uninit hl,
    partial_tiles_getD _ _ _ _ _ _ _ _ _ hp]

/-- C14: the Tile Compute stage of `linear_v2`.  Run on the channels the producers have
filled, the compute stage returns after `n_chunks_out * n_chunks_in` iterations: it has
popped that many tiles from `input_stream` and from `weight_stream`, leaving both
empty, and pushed that many tiles to `output_stream_partials`, without touching the
output buffer.  The `p`-th partial is `vmm_unrolled_tile` of the `p`-th tile of
`input_stream` and the `p`-th tile of `weight_stream`, which is the tile product of
input tile `p / n_chunks_out` and weight sub-block `(p / n_chunks_in, p % n_chunks_in)`.
(No property of the configuration is needed.) -/
theorem tile_compute_stage [Zero T] [Add T] [Mul T]
    (n_chunks_in n_chunks_out BLOCK_SIZE_IN BLOCK_SIZE_OUT : Nat)
    (input output : Nat → T) (weight : Nat → Nat → T) (bias uninit : Nat → T)
    (uninit2 : Nat → Nat → T) :
    ∃ s1,
      compute_stage n_chunks_in n_chunks_out BLOCK_SIZE_IN BLOCK_SIZE_OUT uninit
        (after_producers n_chunks_in n_chunks_out BLOCK_SIZE_IN BLOCK_SIZE_OUT input output
          weight bias uninit uninit2) = Except.ok s1 ∧
      s1.input_stream.reads = n_chunks_out * n_chunks_in ∧
      s1.weight_stream.reads = n_chunks_out * n_chunks_in ∧
      s1.input_stream.fifo = [] ∧ s1.weight_stream.fifo = [] ∧
      s1.output_stream_partials.writes = n_chunks_out * n_chunks_in ∧
      s1.output_stream_partials.fifo.length = n_chunks_out * n_chunks_in ∧
      s1.output = output ∧
      ∀ p, p < n_chunks_out * n_chunks_in →
        ∃ x w t,
          (after_producers n_chunks_in n_chunks_out BLOCK_SIZE_IN BLOCK_SIZE_OUT input output
            weight bias uninit uninit2).input_stream.fifo[p]? = some x ∧
          (after_producers n_chunks_in n_chunks_out BLOCK_SIZE_IN BLOCK_SIZE_OUT input output
            weight bias uninit uninit2).weight_stream.fifo[p]? = some w ∧
          s1.output_stream_partials.fifo[p]? = some t ∧
          t = vmm_unrolled_tile BLOCK_SIZE_IN BLOCK_SIZE_OUT x w uninit ∧
          ∀ k, k < BLOCK_SIZE_OUT →
            t k = vmm_row BLOCK_SIZE_IN k
              (fun l => input (p / n_chunks_out * BLOCK_SIZE_IN + l))
              (fun k1 l => weight (p / n_chunks_in * BLOCK_SIZE_OUT + k1)
                (p % n_chunks_in * BLOCK_SIZE_IN + l)) := by
  unfold after_producers
  rw [compute_stage_eq]
  refine ⟨_, rfl, rfl, rfl, rfl, rfl, rfl, length_partial_tiles _ _ _ _ _ _ _ _, rfl, ?_⟩
  intro p hp
  refine ⟨input_chunk BLOCK_SIZE_IN (p / n_chunks_out) input uninit,
    weight_chunk BLOCK_SIZE_IN BLOCK_SIZE_OUT (p / n_chunks_in) (p % n_chunks_in)
      weight uninit2, _, ?_, ?_, partial_tiles_getElem? _ _ _ _ _ _ _ _ p hp, rfl, ?_⟩
  · rw [input_stream_producer_eq]
    exact input_tiles_getElem? _ _ _ _ _ p (by rw [Nat.mul_comm]; exact hp)
  · rw [weight_stream_producer_eq]
    exact weight_tiles_getElem? _ _ _ _ _ _ p hp
  · intro k hk
    rw [vmm_unrolled_tile_apply, if_pos hk]
    apply vmm_row_congr
    · intro j hj
      rw [input_chunk_apply, if_pos hj]
    · intro j hj
      rw [weight_chunk_apply, if_pos ⟨hk, hj⟩]

/-- C14 at two input tiles and two output tiles of width `1`, `input = [3,4]`,
`weight = [[10,20],[30,40]]`: the compute stage returns and has pushed the partial tiles
`[30], [60], [120], [160]`. -/
theorem tile_compute_stage_witness :
    Except.map (fun s => tiles_readback 1 s.output_stream_partials.fifo)
      (compute_stage 2 2 1 1 (vec [])
        (after_producers 2 2 1 1 (vec [3, 4]) (vec []) (mat [[10, 20], [30, 40]])
          (vec [0, 0]) (vec [] : Nat → Int) (mat [])))
      = Except.ok [[30], [60], [120], [160]] ∧
    ∃ s1, compute_stage 2 2 1 1 (vec [])
        (after_producers 2 2 1 1 (vec [3, 4]) (vec []) (mat [[10, 20], [30, 40]])
          (vec [0, 0]) (vec [] : Nat → Int) (mat [])) = Except.ok s1 :=
  ⟨rfl,
    (tile_compute_stage 2 2 1 1 (vec [3, 4]) (vec []) (mat [[10, 20], [30, 40]])
      (vec [0, 0]) (vec [] : Nat → Int) (mat [])).imp (fun _ h => h.1)⟩

/-- C16, the code at a failing input: `in_size = out_size = 2`, block sizes `1` (so
`n_chunks_in = n_chunks_out = 2`), `input = [3,4]`, `weight = [[10,20],[30,40]]`.
`input_stream` holds the input tiles `0, 0, 1, 1` and `weight_stream` the sub-blocks
`(0,0), (0,1), (1,0), (1,1)`: at position `1 = 0 * 2 + 1` sub-block `(0,1)` meets input
tile `0`, not tile `1`, and at position `2` sub-block `(1,0)` meets tile `1`.  The
partials are `[30], [60], [120], [160]`; the pairing by `(i, j)` would give
`[30], [80], [90], [160]`. -/
theorem pairing_misaligned_with_equal_counts :
    (n_chunks 2 1 = 2 ∧ n_chunks 2 1 = n_chunks 2 1) ∧
    tiles_readback 1 (input_stream_producer (n_chunks 2 1) (n_chunks 2 1) 1 (vec [3, 4])
      (vec [] : Nat → Int) HlsStream.empty).fifo = [[3], [3], [4], [4]] ∧
    tiles_readback 1 ((weight_stream_producer (n_chunks 2 1) (n_chunks 2 1) 1 1
      (mat [[10, 20], [30, 40]]) (mat [] : Nat → Nat → Int) HlsStream.empty).fifo.map
        (fun w => w 0)) = [[10], [20], [30], [40]] ∧
    Except.map (fun s => tiles_readback 1 s.output_stream_partials.fifo)
      (compute_stage (n_chunks 2 1) (n_chunks 2 1) 1 1 (vec [])
        (after_producers (n_chunks 2 1) (n_chunks 2 1) 1 1 (vec [3, 4]) (vec [])
          (mat [[10, 20], [30, 40]]) (vec [0, 0]) (vec [] : Nat → Int) (mat [])))
      = Except.ok [[30], [60], [120], [160]] :=
  ⟨by decide, rfl, rfl, rfl⟩

theorem pairing_index_iff (n_in n_out : Nat) (hnin : 1 ≤ n_in) (hnout : 1 ≤ n_out) :
    (∀ i j, i < n_out → j < n_in → (i * n_in + j) / n_out = j) ↔ (n_in = 1 ∨ n_out = 1) := by
  constructor
  · intro h
    by_contra hne
    have h2in : 1 < n_in := by omega
    have h2out : 1 < n_out := by omega
    have h01 := h 0 1 (by omega) h2in
    rw [Nat.zero_mul, Nat.zero_add, Nat.div_eq_of_lt h2out] at h01
    exact absurd h01 (by decide)
  · rintro (h | h)
    · subst h
      intro i j hi hj
      have hj0 : j = 0 := by omega
      subst hj0
      rw [Nat.mul_one, Nat.add_zero]
      exact Nat.div_eq_of_lt hi
    · subst h
      intro i j hi _
      have hi0 : i = 0 := by omega
      subst hi0
      rw [Nat.zero_mul, Nat.zero_add, Nat.div_one]

/-! ## Index safety of `linear` -/

theorem forUpToM_succ_shift {σ : Type} (body : Nat → σ → Except Fault σ) (n : Nat) (s : σ) :
    forUpToM (n + 1) body s
      = match body 0 s with
        | Except.error e => Except.error e
        | Except.ok s1 => forUpToM n (fun k => body (k + 1)) s1 := by
  induction n with
  | zero =>
    show body 0 s = _
    generalize body 0 s = r
    cases r <;> rfl
  | succ n ih =>
    rw [forUpToM_succ, ih]
    generalize body 0 s = r
    cases r <;> rfl

theorem forUpToM_congr {σ : Type} (n : Nat) (f g : Nat → σ → Except Fault σ) (s : σ)
    (h : ∀ k, k < n → ∀ st, f k st = g k st) : forUpToM n f s = forUpToM n g s := by
  induction n with
  | zero => rfl
  | succ n ih =>
    rw [forUpToM_succ, forUpToM_succ, ih (fun k hk st => h k (Nat.lt_succ_of_lt hk) st)]
    cases forUpToM n g s with
    | error e => rfl
    | ok s1 => exact h n (Nat.lt_succ_self n) s1

/-- A stepped loop with a positive step and a bound `n` steps away is the counted loop
over the `n` starting indices, also when the body may fail. -/
theorem forStep_eq_forUpToM {σ : Type} (step : Nat) (hstep : 0 < step)
    (body : Nat → σ → Except Fault σ) :
    ∀ (n fuel i : Nat) (s : σ), n ≤ fuel →
      forStep fuel i (i + n * step) step body s
        = forUpToM n (fun c => body (i + c * step)) s := by
  intro n
  induction n with
  | zero =>
    intro fuel i s _
    cases fuel <;> simp [forStep, forUpToM]
  | succ n ih =>
    intro fuel i s hfuel
    obtain ⟨f1, rfl⟩ : ∃ f1, fuel = f1 + 1 := ⟨fuel - 1, by omega⟩
    have hlt : i < i + (n + 1) * step := by
      have : 0 < (n + 1) * step := Nat.mul_pos (Nat.succ_pos n) hstep
      omega
    have hhi : i + (n + 1) * step = (i + step) + n * step := by ring
    rw [forUpToM_succ_shift]
    simp only [forStep, hlt, if_true]
    have e0 : i + 0 * step = i := by simp
    rw [e0]
    cases body i s with
    | error e => rfl
    | ok s1 =>
      simp only []
      rw [hhi, ih f1 (i + step) s1 (by omega)]
      apply forUpToM_congr
      intro k _ st
      have : i + step + k * step = i + (k + 1) * step := by ring
      rw [this]

theorem forStep_tiles_M {σ : Type} (step : Nat) (hstep : 0 < step)
    (body : Nat → σ → Except Fault σ) (n : Nat) (s : σ) :
    forStep (n * step) 0 (n * step) step body s = forUpToM n (fun c => body (c * step)) s := by
  have h := forStep_eq_forUpToM step hstep body n (n * step) 0 s
    (Nat.le_mul_of_pos_right n hstep)
  simpa using h

/-- A checked counted loop simulates the unchecked one when every iteration does. -/
theorem sim_forUpToM {σc σ : Type} (R : σc → σ → Prop) (bodyc : Nat → σc → Except Fault σc)
    (body : Nat → σ → σ) (n : Nat)
    (h : ∀ k, k < n → ∀ sc s, R sc s → Sim R (bodyc k sc) (body k s))
    (sc : σc) (s : σ) (hR : R sc s) :
    Sim R (forUpToM n bodyc sc) (forUpTo n body s) := by
  induction n with
  | zero => exact ⟨sc, rfl, hR⟩
  | succ n ih =>
    obtain ⟨s1, e1, r1⟩ := ih (fun k hk => h k (Nat.lt_succ_of_lt hk))
    obtain ⟨s2, e2, r2⟩ := h n (Nat.lt_succ_self n) s1 _ r1
    refine ⟨s2, ?_, r2⟩
    rw [forUpToM_succ, e1]
    exact e2

theorem load_agrees (n : Nat) (xs : List T) (f : Nat → T) (h : agrees n xs f) (i : Nat)
    (hi : i < n) : load xs i = Except.ok (f i) := by
  unfold load
  rw [h.2 i hi]

theorem load2_agrees (rows cols : Nat) (w : List (List T)) (f : Nat → Nat → T)
    (h : agrees2 rows cols w f) (i j : Nat) (hi : i < rows) (hj : j < cols) :
    load2 w i j = Except.ok (f i j) := by
  obtain ⟨row, hrow, hag⟩ := h.2 i hi
  unfold load2
  rw [hrow]
  exact load_agrees cols row (f i) hag j hj

theorem store_agrees (n : Nat) (xs : List T) (f : Nat → T) (h : agrees n xs f) (i : Nat)
    (hi : i < n) (v : T) :
    Sim (agrees n) (store xs i v) (Function.update f i v) := by
  refine ⟨xs.set i v, ?_, ?_, ?_⟩
  · unfold store
    rw [if_pos (by rw [h.1]; exact hi)]
  · rw [List.length_set]
    exact h.1
  · intro j hj
    rw [List.getElem?_set]
    by_cases hij : i = j
    · subst hij
      rw [if_pos rfl, if_pos (by rw [h.1]; exact hi), Function.update_same]
    · rw [if_neg hij, Function.update_noteq (Ne.symm hij)]
      exact h.2 j hj

theorem agrees_vec [Zero T] (xs : List T) : agrees xs.length xs (vec xs) := by
  refine ⟨rfl, ?_⟩
  intro i hi
  simp [vec, List.getElem?_eq_getElem hi]

theorem agrees2_mat [Zero T] (cols : Nat) (w : List (List T))
    (hrows : ∀ row, row ∈ w → row.length = cols) : agrees2 w.length cols w (mat w) := by
  refine ⟨rfl, ?_⟩
  intro i hi
  refine ⟨w[i], List.getElem?_eq_getElem hi, ?_, ?_⟩
  · exact hrows _ (List.getElem_mem hi)
  · intro j hj
    have hj' : j < (w[i]).length := by
      rw [hrows _ (List.getElem_mem hi)]
      exact hj
    simp [mat, List.getElem?_eq_getElem hi, List.getElem?_eq_getElem hj']

theorem BIAS_WRITE_checked_sim (out_size BO a : Nat) (ha : a + BO ≤ out_size)
    (bias : List T) (bf : Nat → T) (hb : agrees out_size bias bf)
    (out : List T) (f : Nat → T) (ho : agrees out_size out f) :
    Sim (agrees out_size) (BIAS_WRITE_checked BO a bias out) (BIAS_WRITE BO a bf f) := by
  unfold BIAS_WRITE_checked BIAS_WRITE
  apply sim_forUpToM (agrees out_size) _ _ BO _ out f ho
  intro k hk sc s hR
  dsimp only
  rw [load_agrees out_size bias bf hb (a + k) (by omega)]
  exact store_agrees out_size sc s hR (a + k) (by omega) _

theorem TEMP_SUM_ZERO_LOOP_checked_sim [Zero T] (BO : Nat) (t : List T) (tf : Nat → T)
    (ht : agrees BO t tf) :
    Sim (agrees BO) (TEMP_SUM_ZERO_LOOP_checked BO t) (TEMP_SUM_ZERO_LOOP BO tf) := by
  unfold TEMP_SUM_ZERO_LOOP_checked TEMP_SUM_ZERO_LOOP
  apply sim_forUpToM (agrees BO) _ _ BO _ t tf ht
  intro k hk sc s hR
  exact store_agrees BO sc s hR k hk _

theorem SUM_INNER_checked_sim [Add T] [Mul T] (in_size out_size BI BO i j k : Nat)
    (hi : i + k < out_size) (hj : j + BI ≤ in_size) (hk : k < BO)
    (input : List T) (xf : Nat → T) (hx : agrees in_size input xf)
    (weight : List (List T)) (wf : Nat → Nat → T) (hw : agrees2 out_size in_size weight wf)
    (t : List T) (tf : Nat → T) (ht : agrees BO t tf) :
    Sim (agrees BO) (SUM_INNER_checked BI i j k input weight t) (SUM_INNER BI i j k xf wf tf) := by
  unfold SUM_INNER_checked SUM_INNER
  apply sim_forUpToM (agrees BO) _ _ BI _ t tf ht
  intro l hl sc s hR
  dsimp only
  rw [load2_agrees out_size in_size weight wf hw (i + k) (j + l) hi (by omega),
    load_agrees in_size input xf hx (j + l) (by omega), load_agrees BO sc s hR k hk]
  exact store_agrees BO sc s hR k hk _

theorem SUM_OUTER_checked_sim [Add T] [Mul T] (in_size out_size BI BO i j : Nat)
    (hi : i + BO ≤ out_size) (hj : j + BI ≤ in_size)
    (input : List T) (xf : Nat → T) (hx : agrees in_size input xf)
    (weight : List (List T)) (wf : Nat → Nat → T) (hw : agrees2 out_size in_size weight wf)
    (t : List T) (tf : Nat → T) (ht : agrees BO t tf) :
    Sim (agrees BO) (SUM_OUTER_checked BI BO i j input weight t) (SUM_OUTER BI BO i j xf wf tf) := by
  unfold SUM_OUTER_checked SUM_OUTER
  apply sim_forUpToM (agrees BO) _ _ BO _ t tf ht
  intro k hk sc s hR
  exact SUM_INNER_checked_sim in_size out_size BI BO i j k (by omega) hj hk input xf hx
    weight wf hw sc s hR

theorem WRITE_LOOP_checked_sim [Add T] (out_size BO i : Nat) (hi : i + BO ≤ out_size)
    (t : List T) (tf : Nat → T) (ht : agrees BO t tf)
    (out : List T) (f : Nat → T) (ho : agrees out_size out f) :
    Sim (agrees out_size) (WRITE_LOOP_checked BO i t out) (WRITE_LOOP BO i tf f) := by
  unfold WRITE_LOOP_checked WRITE_LOOP
  apply sim_forUpToM (agrees out_size) _ _ BO _ out f ho
  intro k hk sc s hR
  dsimp only
  rw [load_agrees out_size sc s hR (i + k) (by omega), load_agrees BO t tf ht k hk]
  exact store_agrees out_size sc s hR (i + k) (by omega) _

/-- One pass of the body of `BLOCK_IN` with checked accesses returns and keeps the
checked state in agreement with the state of `linear`, when the two blocks lie inside
the arrays. -/
theorem BLOCK_IN_body_checked_sim [Zero T] [Add T] [Mul T] (in_size out_size BI BO i j : Nat)
    (hi : i + BO ≤ out_size) (hj : j + BI ≤ in_size)
    (input : List T) (xf : Nat → T) (hx : agrees in_size input xf)
    (weight : List (List T)) (wf : Nat → Nat → T) (hw : agrees2 out_size in_size weight wf)
    (sc : LinearStateChecked T) (s : LinearState T)
    (hR : agrees out_size sc.output s.output ∧ agrees BO sc.temp_sum s.temp_sum) :
    Sim (fun (c : LinearStateChecked T) (u : LinearState T) =>
        agrees out_size c.output u.output ∧ agrees BO c.temp_sum u.temp_sum)
      (BLOCK_IN_body_checked BI BO i j input weight sc) (BLOCK_IN_body BI BO i j xf wf s) := by
  obtain ⟨t0, e0, r0⟩ := TEMP_SUM_ZERO_LOOP_checked_sim BO sc.temp_sum s.temp_sum hR.2
  obtain ⟨t1, e1, r1⟩ := SUM_OUTER_checked_sim in_size out_size BI BO i j hi hj input xf hx
    weight wf hw t0 _ r0
  obtain ⟨o1, e2, r2⟩ := WRITE_LOOP_checked_sim out_size BO i hi t1 _ r1 sc.output s.output hR.1
  refine ⟨{ output := o1, temp_sum := t1 }, ?_, r2, r1⟩
  unfold BLOCK_IN_body_checked
  rw [e0]
  dsimp only
  rw [e1]
  dsimp only
  rw [e2]

theorem BLOCK_IN_checked_sim [Zero T] [Add T] [Mul T] (n out_size BI BO i : Nat)
    (hBI : 0 < BI) (hi : i + BO ≤ out_size)
    (input : List T) (xf : Nat → T) (hx : agrees (n * BI) input xf)
    (weight : List (List T)) (wf : Nat → Nat → T) (hw : agrees2 out_size (n * BI) weight wf)
    (sc : LinearStateChecked T) (s : LinearState T)
    (hR : agrees out_size sc.output s.output ∧ agrees BO sc.temp_sum s.temp_sum) :
    Sim (fun (c : LinearStateChecked T) (u : LinearState T) =>
        agrees out_size c.output u.output ∧ agrees BO c.temp_sum u.temp_sum)
      (BLOCK_IN_checked (n * BI) BI BO i input weight sc)
      (forUpTo n (fun d => BLOCK_IN_body BI BO i (d * BI) xf wf) s) := by
  unfold BLOCK_IN_checked
  rw [forStep_tiles_M BI hBI]
  apply sim_forUpToM _ _ _ n _ sc s hR
  intro d hd c u hcu
  have hj : d * BI + BI ≤ n * BI := by
    have h1 : (d + 1) * BI ≤ n * BI := Nat.mul_le_mul_right _ hd
    have h2 : (d + 1) * BI = d * BI + BI := by ring
    omega
  exact BLOCK_IN_body_checked_sim (n * BI) out_size BI BO i (d * BI) hi hj input xf hx
    weight wf hw c u hcu

theorem BLOCK_OUT_checked_sim [Zero T] [Add T] [Mul T] (n m BI BO : Nat)
    (hBI : 0 < BI) (hBO : 0 < BO)
    (input : List T) (xf : Nat → T) (hx : agrees (n * BI) input xf)
    (weight : List (List T)) (wf : Nat → Nat → T) (hw : agrees2 (m * BO) (n * BI) weight wf)
    (sc : LinearStateChecked T) (s : LinearState T)
    (hR : agrees (m * BO) sc.output s.output ∧ agrees BO sc.temp_sum s.temp_sum) :
    Sim (fun (c : LinearStateChecked T) (u : LinearState T) =>
        agrees (m * BO) c.output u.output ∧ agrees BO c.temp_sum u.temp_sum)
      (BLOCK_OUT_checked (n * BI) (m * BO) BI BO input weight sc)
      (forUpTo m (fun c => forUpTo n
        (fun d => BLOCK_IN_body BI BO (c * BO) (d * BI) xf wf)) s) := by
  unfold BLOCK_OUT_checked
  rw [forStep_tiles_M BO hBO]
  apply sim_forUpToM _ _ _ m _ sc s hR
  intro c hc st u hcu
  have hi : c * BO + BO ≤ m * BO := by
    have h1 : (c + 1) * BO ≤ m * BO := Nat.mul_le_mul_right _ hc
    have h2 : (c + 1) * BO = c * BO + BO := by ring
    omega
  exact BLOCK_IN_checked_sim n (m * BO) BI BO (c * BO) hBI hi input xf hx weight wf hw st u hcu

theorem BIAS_BLOCK_OUT_checked_sim (m BO : Nat) (hBO : 0 < BO)
    (bias : List T) (bf : Nat → T) (hb : agrees (m * BO) bias bf)
    (out : List T) (f : Nat → T) (ho : agrees (m * BO) out f) :
    Sim (agrees (m * BO)) (BIAS_BLOCK_OUT_checked (m * BO) BO bias out)
      (forUpTo m (fun c => BIAS_WRITE BO (c * BO) bf) f) := by
  unfold BIAS_BLOCK_OUT_checked
  rw [forStep_tiles_M BO hBO]
  apply sim_forUpToM _ _ _ m _ out f ho
  intro c hc sc s hR
  have hi : c * BO + BO ≤ m * BO := by
    have h1 : (c + 1) * BO ≤ m * BO := Nat.mul_le_mul_right _ hc
    have h2 : (c + 1) * BO = c * BO + BO := by ring
    omega
  exact BIAS_WRITE_checked_sim (m * BO) BO (c * BO) hi bias bf hb sc s hR

/-- The output of `linear` on `n` input blocks and `m` output blocks, as the nest of
counted loops. -/
theorem linear_eq_loops [Zero T] [Add T] [Mul T] (n m BI BO : Nat)
    (hBI : 0 < BI) (hBO : 0 < BO)
    (input output : Nat → T) (weight : Nat → Nat → T) (bias temp_sum : Nat → T) :
    linear (n * BI) (m * BO) BI BO input output weight bias temp_sum
      = Except.ok (forUpTo m
          (fun c => forUpTo n (fun d => BLOCK_IN_body BI BO (c * BO) (d * BI) input weight))
          { output := forUpTo m (fun c => BIAS_WRITE BO (c * BO) bias) output,
            temp_sum := temp_sum }).output := by
  obtain ⟨a1, a2⟩ := static_asserts_pass (n * BI) (m * BO) BI BO hBI hBO
    (Nat.mul_mod_left n BI) (Nat.mul_mod_left m BO)
  unfold linear
  rw [a1, a2, BIAS_BLOCK_OUT_eq m BO hBO]
  simp only [Bool.true_eq_false, if_false]
  rw [BLOCK_OUT_eq n m BI BO hBI hBO]

/-- On `n` input blocks and `m` output blocks, with arrays of the declared lengths,
`linear_checked` returns without an access out of bounds and its output agrees with
the output of `linear`. -/
theorem linear_checked_sim [Zero T] [Add T] [Mul T] (n m BI BO : Nat)
    (hBI : 0 < BI) (hBO : 0 < BO)
    (input : List T) (xf : Nat → T) (hx : agrees (n * BI) input xf)
    (weight : List (List T)) (wf : Nat → Nat → T) (hw : agrees2 (m * BO) (n * BI) weight wf)
    (bias : List T) (bf : Nat → T) (hb : agrees (m * BO) bias bf)
    (output : List T) (f : Nat → T) (ho : agrees (m * BO) output f)
    (temp_sum : List T) (tf : Nat → T) (ht : agrees BO temp_sum tf) :
    ∃ out o,
      linear_checked (n * BI) (m * BO) BI BO input output weight bias temp_sum = Except.ok out ∧
      linear (n * BI) (m * BO) BI BO xf f wf bf tf = Except.ok o ∧
      agrees (m * BO) out o := by
  obtain ⟨a1, a2⟩ := static_asserts_pass (n * BI) (m * BO) BI BO hBI hBO
    (Nat.mul_mod_left n BI) (Nat.mul_mod_left m BO)
  obtain ⟨out1, e1, r1⟩ := BIAS_BLOCK_OUT_checked_sim m BO hBO bias bf hb output f ho
  obtain ⟨sc, e2, r2⟩ := BLOCK_OUT_checked_sim n m BI BO hBI hBO input xf hx weight wf hw
    { output := out1, temp_sum := temp_sum }
    { output := forUpTo m (fun c => BIAS_WRITE BO (c * BO) bf) f, temp_sum := tf } ⟨r1, ht⟩
  refine ⟨sc.output, _, ?_, linear_eq_loops n m BI BO hBI hBO xf f wf bf tf, r2.1⟩
  unfold linear_checked linear_loops_checked
  rw [a1, a2]
  simp only [Bool.true_eq_false, if_false]
  rw [e1]
  dsimp only
  rw [e2]

theorem block_index_lt (size B a b : Nat) (hdiv : size % B = 0) (ha0 : a % B = 0)
    (ha : a < size) (hb : b < B) : a + b < size := by
  have hB : 0 < B := by omega
  have e1 : size / B * B = size := Nat.div_mul_cancel (Nat.dvd_of_mod_eq_zero hdiv)
  have e2 : a / B * B = a := Nat.div_mul_cancel (Nat.dvd_of_mod_eq_zero ha0)
  have hq : a / B < size / B := by
    rw [Nat.div_lt_iff_lt_mul hB, e1]
    exact ha
  have h := tile_index_lt (size / B) B (a / B) b hq hb
  rw [e1, e2] at h
  exact h

/-- C20: index safety of `linear`.  For positive block sizes with
`in_size % BLOCK_SIZE_IN = 0` and `out_size % BLOCK_SIZE_OUT = 0` every index `linear`
forms is in bounds: `a + b < out_size` in the bias loop and `i + k < out_size`,
`j + l < in_size` in the block loops (`a`, `i` multiples of `BLOCK_SIZE_OUT` below
`out_size`, `j` a multiple of `BLOCK_SIZE_IN` below `in_size`, `b, k < BLOCK_SIZE_OUT`,
`l < BLOCK_SIZE_IN`), and `k < BLOCK_SIZE_OUT` for `temp_sum`.  So `linear_checked`, the
kernel over arrays of the declared lengths whose every access is checked, returns
without reaching the out-of-bounds branch, and its output is the output of `linear`.
Without divisibility the loops do index past the end: with `out_size = 3` and
`BLOCK_SIZE_OUT = 2` the bias loop faults. -/
theorem linear_index_safety [Zero T] [Add T] [Mul T]
    (in_size out_size BLOCK_SIZE_IN BLOCK_SIZE_OUT : Nat)
    (hBI : 0 < BLOCK_SIZE_IN) (hBO : 0 < BLOCK_SIZE_OUT)
    (hin : in_size % BLOCK_SIZE_IN = 0) (hout : out_size % BLOCK_SIZE_OUT = 0)
    (input output : List T) (weight : List (List T)) (bias temp_sum : List T)
    (hli : input.length = in_size) (hlo : output.length = out_size)
    (hlw : weight.length = out_size) (hrows : ∀ row, row ∈ weight → row.length = in_size)
    (hlb : bias.length = out_size) (hlt : temp_sum.length = BLOCK_SIZE_OUT) :
    (∀ a b, a % BLOCK_SIZE_OUT = 0 → a < out_size → b < BLOCK_SIZE_OUT → a + b < out_size) ∧
    (∀ j l, j % BLOCK_SIZE_IN = 0 → j < in_size → l < BLOCK_SIZE_IN → j + l < in_size) ∧
    (∃ out o,
      linear_checked in_size out_size BLOCK_SIZE_IN BLOCK_SIZE_OUT input output weight bias
        temp_sum = Except.ok out ∧
      out.length = out_size ∧
      linear in_size out_size BLOCK_SIZE_IN BLOCK_SIZE_OUT (vec input) (vec output)
        (mat weight) (vec bias) (vec temp_sum) = Except.ok o ∧
      ∀ x, x < out_size → out[x]? = some (o x)) ∧
    (∀ b0 b1 b2 o0 o1 o2 : T,
      BIAS_BLOCK_OUT_checked 3 2 [b0, b1, b2] [o0, o1, o2]
        = Except.error Fault.out_of_bounds) := by
  refine ⟨fun a b ha0 ha hb => block_index_lt out_size BLOCK_SIZE_OUT a b hout ha0 ha hb,
    fun j l hj0 hj hl => block_index_lt in_size BLOCK_SIZE_IN j l hin hj0 hj hl, ?_,
    fun _ _ _ _ _ _ => rfl⟩
  have ein : in_size = in_size / BLOCK_SIZE_IN * BLOCK_SIZE_IN :=
    (Nat.div_mul_cancel (Nat.dvd_of_mod_eq_zero hin)).symm
  have eout : out_size = out_size / BLOCK_SIZE_OUT * BLOCK_SIZE_OUT :=
    (Nat.div_mul_cancel (Nat.dvd_of_mod_eq_zero hout)).symm
  have hx : agrees in_size input (vec input) := by
    rw [← hli]
    exact agrees_vec input
  have ho : agrees out_size output (vec output) := by
    rw [← hlo]
    exact agrees_vec output
  have hb : agrees out_size bias (vec bias) := by
    rw [← hlb]
    exact agrees_vec bias
  have ht : agrees BLOCK_SIZE_OUT temp_sum (vec temp_sum) := by
    rw [← hlt]
    exact agrees_vec temp_sum
  have hw : agrees2 out_size in_size weight (mat weight) := by
    rw [← hlw]
    exact agrees2_mat in_size weight hrows
  generalize in_size / BLOCK_SIZE_IN = n at ein
  generalize out_size / BLOCK_SIZE_OUT = m at eout
  subst ein
  subst eout
  obtain ⟨out, o, h1, h2, h3⟩ := linear_checked_sim n m BLOCK_SIZE_IN BLOCK_SIZE_OUT hBI hBO
    input (vec input) hx weight (mat weight) hw bias (vec bias) hb output (vec output) ho
    temp_sum (vec temp_sum) ht
  exact ⟨out, o, h1, h3.1, h2, h3.2⟩

/-- C20 on the scenario of C1 with arrays of the declared lengths: `linear_checked`
returns `[10, 26]`; with `out_size = 3` and `BLOCK_SIZE_OUT = 2` the assertion rejects
the kernel, and the loops alone fault on an index out of bounds. -/
theorem linear_index_safety_witness :
    (0 < 2 ∧ 0 < 1 ∧ 4 % 2 = 0 ∧ 2 % 1 = 0) ∧
    linear_checked 4 2 2 1 [1, 1, 1, 1] [0, 0] [[1, 2, 3, 4], [5, 6, 7, 8]] [0, 0]
      ([9] : List Int) = Except.ok [10, 26] ∧
    linear_checked 4 3 2 2 [1, 1, 1, 1] [0, 0, 0] [[1, 2, 3, 4], [5, 6, 7, 8], [1, 1, 1, 1]]
      [0, 0, 0] ([9, 9] : List Int) = Except.error Fault.static_assert_failed ∧
    linear_loops_checked 4 3 2 2 [1, 1, 1, 1] [0, 0, 0]
      [[1, 2, 3, 4], [5, 6, 7, 8], [1, 1, 1, 1]] [0, 0, 0] ([9, 9] : List Int)
      = Except.error Fault.out_of_bounds ∧
    ∃ out o,
      linear_checked 4 2 2 1 [1, 1, 1, 1] [0, 0] [[1, 2, 3, 4], [5, 6, 7, 8]] [0, 0]
        ([9] : List Int) = Except.ok out ∧
      out.length = 2 ∧
      linear 4 2 2 1 (vec [1, 1, 1, 1]) (vec [0, 0]) (mat [[1, 2, 3, 4], [5, 6, 7, 8]])
        (vec [0, 0]) (vec ([9] : List Int)) = Except.ok o ∧
      ∀ x, x < 2 → out[x]? = some (o x) :=
  ⟨by decide, rfl, rfl, rfl,
    (linear_index_safety 4 2 2 1 (by decide) (by decide) (by decide) (by decide)
      [1, 1, 1, 1] [0, 0] [[1, 2, 3, 4], [5, 6, 7, 8]] [0, 0] ([9] : List Int)
      rfl rfl rfl (by decide) rfl rfl).2.2.1⟩

/-! ## The pairing of tiles in the compute stage of `linear_v2` -/

/-- The compute stage, run on the channels the producers have filled, returns, and at
position `i * n_chunks_in + j` it has popped weight sub-block `(i, j)` together with the
input tile of index `(i * n_chunks_in + j) / n_chunks_out` and pushed their tile
product. -/
theorem compute_stage_pairing [Zero T] [Add T] [Mul T]
    (n_chunks_in n_chunks_out BLOCK_SIZE_IN BLOCK_SIZE_OUT : Nat)
    (input output : Nat → T) (weight : Nat → Nat → T) (bias uninit : Nat → T)
    (uninit2 : Nat → Nat → T) :
    ∃ s1,
      compute_stage n_chunks_in n_chunks_out BLOCK_SIZE_IN BLOCK_SIZE_OUT uninit
        (after_producers n_chunks_in n_chunks_out BLOCK_SIZE_IN BLOCK_SIZE_OUT input output
          weight bias uninit uninit2) = Except.ok s1 ∧
      ∀ i j, i < n_chunks_out → j < n_chunks_in →
        ∃ x w t,
          (after_producers n_chunks_in n_chunks_out BLOCK_SIZE_IN BLOCK_SIZE_OUT input output
            weight bias uninit uninit2).input_stream.fifo[i * n_chunks_in + j]? = some x ∧
          (after_producers n_chunks_in n_chunks_out BLOCK_SIZE_IN BLOCK_SIZE_OUT input output
            weight bias uninit uninit2).weight_stream.fifo[i * n_chunks_in + j]? = some w ∧
          s1.output_stream_partials.fifo[i * n_chunks_in + j]? = some t ∧
          t = vmm_unrolled_tile BLOCK_SIZE_IN BLOCK_SIZE_OUT x w uninit ∧
          (∀ l, l < BLOCK_SIZE_IN →
            x l = input ((i * n_chunks_in + j) / n_chunks_out * BLOCK_SIZE_IN + l)) ∧
          (∀ k l, k < BLOCK_SIZE_OUT → l < BLOCK_SIZE_IN →
            w k l = weight (i * BLOCK_SIZE_OUT + k) (j * BLOCK_SIZE_IN + l)) ∧
          (∀ k, k < BLOCK_SIZE_OUT →
            t k = vmm_row BLOCK_SIZE_IN k
              (fun l => input ((i * n_chunks_in + j) / n_chunks_out * BLOCK_SIZE_IN + l))
              (fun k1 l => weight (i * BLOCK_SIZE_OUT + k1) (j * BLOCK_SIZE_IN + l))) := by
  unfold after_producers
  rw [compute_stage_eq]
  refine ⟨_, rfl, ?_⟩
  intro i j hi hj
  have hp : i * n_chunks_in + j < n_chunks_out * n_chunks_in := tile_index_lt _ _ i j hi hj
  have hn : 0 < n_chunks_in := by omega
  have hdiv : (i * n_chunks_in + j) / n_chunks_in = i := by
    rw [Nat.add_comm, Nat.add_mul_div_right _ _ hn, Nat.div_eq_of_lt hj, Nat.zero_add]
  have hmod : (i * n_chunks_in + j) % n_chunks_in = j := by
    rw [Nat.add_comm, Nat.add_mul_mod_self_right, Nat.mod_eq_of_lt hj]
  refine ⟨input_chunk BLOCK_SIZE_IN ((i * n_chunks_in + j) / n_chunks_out) input uninit,
    weight_chunk BLOCK_SIZE_IN BLOCK_SIZE_OUT i j weight uninit2, _, ?_, ?_, ?_, rfl,
    ?_, ?_, ?_⟩
  · rw [input_stream_producer_eq]
    have hp2 : i * n_chunks_in + j < n_chunks_in * n_chunks_out := by
      rw [Nat.mul_comm n_chunks_in n_chunks_out]
      exact hp
    exact input_tiles_getElem? _ _ _ _ _ _ hp2
  · rw [weight_stream_producer_eq]
    have h := weight_tiles_getElem? n_chunks_in n_chunks_out BLOCK_SIZE_IN BLOCK_SIZE_OUT
      weight uninit2 _ hp
    rw [hdiv, hmod] at h
    exact h
  · have h := partial_tiles_getElem? n_chunks_in n_chunks_out BLOCK_SIZE_IN BLOCK_SIZE_OUT
      input weight uninit uninit2 _ hp
    rw [hdiv, hmod] at h
    exact h
  · intro l hl
    rw [input_chunk_apply, if_pos hl]
  · intro k l hk hl
    rw [weight_chunk_apply, if_pos ⟨hk, hl⟩]
  · intro k hk
    rw [vmm_unrolled_tile_apply, if_pos hk]
    apply vmm_row_congr
    · intro l hl
      rw [input_chunk_apply, if_pos hl]
    · intro l hl
      rw [weight_chunk_apply, if_pos ⟨hk, hl⟩]

/-- With a weight matrix of ones and the input that is `1` at index `BLOCK_SIZE_IN` and
`0` elsewhere, the product of a weight tile with input tile `1` is `1` and its product
with input tile `0` is `0`. -/
theorem vmm_row_indicator [Semiring T] (BLOCK_SIZE_IN : Nat) (hBI : 0 < BLOCK_SIZE_IN)
    (w : Nat → Nat → T) (hw : ∀ k l, w k l = 1) (k : Nat) :
    vmm_row BLOCK_SIZE_IN k
        (fun l => (fun x => if x = BLOCK_SIZE_IN then (1 : T) else 0) (1 * BLOCK_SIZE_IN + l)) w
      = 1 ∧
    vmm_row BLOCK_SIZE_IN k
        (fun l => (fun x => if x = BLOCK_SIZE_IN then (1 : T) else 0) (0 * BLOCK_SIZE_IN + l)) w
      = 0 := by
  constructor
  · rw [vmm_row_eq_sum, Finset.sum_eq_single 0]
    · dsimp only
      rw [if_pos (by omega), hw, mul_one]
    · intro l _ hl
      have : ¬ (1 * BLOCK_SIZE_IN + l = BLOCK_SIZE_IN) := by omega
      dsimp only
      rw [if_neg this, mul_zero]
    · intro h
      exact absurd (Finset.mem_range.2 hBI) h
  · rw [vmm_row_eq_sum]
    apply Finset.sum_eq_zero
    intro l hl
    have hl' : l < BLOCK_SIZE_IN := Finset.mem_range.1 hl
    have : ¬ (0 * BLOCK_SIZE_IN + l = BLOCK_SIZE_IN) := by omega
    dsimp only
    rw [if_neg this, mul_zero]

/-- C17: the exact condition for correct pairing in `linear_v2`.  With
`n_chunks_in ≥ 1` and `n_chunks_out ≥ 1` (positive block sizes, a semiring with
`0 ≠ 1`):
(1) the compute stage, run on the channels the producers have filled, returns, and at
every FIFO position `p = i * n_chunks_in + j` (`i < n_chunks_out`, `j < n_chunks_in`) it
pops weight sub-block `(i, j)` together with the input tile of index `p / n_chunks_out`
and pushes their tile product;
(2) that index equals `j` at every such position if and only if `n_chunks_in = 1` or
`n_chunks_out = 1`;
(3) the partial pushed at position `i * n_chunks_in + j` is, for every input and weight
and every `(i, j)`, the product of sub-block `(i, j)` with input tile `j` if and only if
`n_chunks_in = 1` or `n_chunks_out = 1`;
(4) in every other configuration there is a position `i * n_chunks_in + j` at which
weight sub-block `(i, j)` is multiplied with an input tile whose index is not `j`. -/
theorem correct_pairing_iff [Semiring T] [Nontrivial T]
    (in_size out_size BLOCK_SIZE_IN BLOCK_SIZE_OUT : Nat)
    (hBI : 0 < BLOCK_SIZE_IN) (hBO : 0 < BLOCK_SIZE_OUT)
    (hnin : 1 ≤ n_chunks in_size BLOCK_SIZE_IN) (hnout : 1 ≤ n_chunks out_size BLOCK_SIZE_OUT) :
    (∀ (input output : Nat → T) (weight : Nat → Nat → T) (bias uninit : Nat → T)
        (uninit2 : Nat → Nat → T),
      ∃ s1,
        compute_stage (n_chunks in_size BLOCK_SIZE_IN) (n_chunks out_size BLOCK_SIZE_OUT)
          BLOCK_SIZE_IN BLOCK_SIZE_OUT uninit
          (after_producers (n_chunks in_size BLOCK_SIZE_IN) (n_chunks out_size BLOCK_SIZE_OUT)
            BLOCK_SIZE_IN BLOCK_SIZE_OUT input output weight bias uninit uninit2)
          = Except.ok s1 ∧
        ∀ i j, i < n_chunks out_size BLOCK_SIZE_OUT → j < n_chunks in_size BLOCK_SIZE_IN →
          ∃ x w t,
            (after_producers (n_chunks in_size BLOCK_SIZE_IN)
              (n_chunks out_size BLOCK_SIZE_OUT) BLOCK_SIZE_IN BLOCK_SIZE_OUT input output
              weight bias uninit uninit2).input_stream.fifo[
                i * n_chunks in_size BLOCK_SIZE_IN + j]? = some x ∧
            (after_producers (n_chunks in_size BLOCK_SIZE_IN)
              (n_chunks out_size BLOCK_SIZE_OUT) BLOCK_SIZE_IN BLOCK_SIZE_OUT input output
              weight bias uninit uninit2).weight_stream.fifo[
                i * n_chunks in_size BLOCK_SIZE_IN + j]? = some w ∧
            s1.output_stream_partials.fifo[i * n_chunks in_size BLOCK_SIZE_IN + j]? = some t ∧
            t = vmm_unrolled_tile BLOCK_SIZE_IN BLOCK_SIZE_OUT x w uninit ∧
            (∀ l, l < BLOCK_SIZE_IN →
              x l = input ((i * n_chunks in_size BLOCK_SIZE_IN + j)
                / n_chunks out_size BLOCK_SIZE_OUT * BLOCK_SIZE_IN + l)) ∧
            (∀ k l, k < BLOCK_SIZE_OUT → l < BLOCK_SIZE_IN →
              w k l = weight (i * BLOCK_SIZE_OUT + k) (j * BLOCK_SIZE_IN + l))) ∧
    ((∀ i j, i < n_chunks out_size BLOCK_SIZE_OUT → j < n_chunks in_size BLOCK_SIZE_IN →
        (i * n_chunks in_size BLOCK_SIZE_IN + j) / n_chunks out_size BLOCK_SIZE_OUT = j)
      ↔ (n_chunks in_size BLOCK_SIZE_IN = 1 ∨ n_chunks out_size BLOCK_SIZE_OUT = 1)) ∧
    ((∀ (input output : Nat → T) (weight : Nat → Nat → T) (bias uninit : Nat → T)
        (uninit2 : Nat → Nat → T),
      ∃ s1,
        compute_stage (n_chunks in_size BLOCK_SIZE_IN) (n_chunks out_size BLOCK_SIZE_OUT)
          BLOCK_SIZE_IN BLOCK_SIZE_OUT uninit
          (after_producers (n_chunks in_size BLOCK_SIZE_IN) (n_chunks out_size BLOCK_SIZE_OUT)
            BLOCK_SIZE_IN BLOCK_SIZE_OUT input output weight bias uninit uninit2)
          = Except.ok s1 ∧
        ∀ i j, i < n_chunks out_size BLOCK_SIZE_OUT → j < n_chunks in_size BLOCK_SIZE_IN →
          ∃ t,
            s1.output_stream_partials.fifo[i * n_chunks in_size BLOCK_SIZE_IN + j]? = some t ∧
            ∀ k, k < BLOCK_SIZE_OUT →
              t k = vmm_row BLOCK_SIZE_IN k (fun l => input (j * BLOCK_SIZE_IN + l))
                (fun k1 l => weight (i * BLOCK_SIZE_OUT + k1) (j * BLOCK_SIZE_IN + l)))
      ↔ (n_chunks in_size BLOCK_SIZE_IN = 1 ∨ n_chunks out_size BLOCK_SIZE_OUT = 1)) ∧
    (¬ (n_chunks in_size BLOCK_SIZE_IN = 1 ∨ n_chunks out_size BLOCK_SIZE_OUT = 1) →
      ∃ i j, i < n_chunks out_size BLOCK_SIZE_OUT ∧ j < n_chunks in_size BLOCK_SIZE_IN ∧
        (i * n_chunks in_size BLOCK_SIZE_IN + j) / n_chunks out_size BLOCK_SIZE_OUT ≠ j ∧
        ∀ (input output : Nat → T) (weight : Nat → Nat → T) (bias uninit : Nat → T)
          (uninit2 : Nat → Nat → T),
          ∃ s1 x w t,
            compute_stage (n_chunks in_size BLOCK_SIZE_IN) (n_chunks out_size BLOCK_SIZE_OUT)
              BLOCK_SIZE_IN BLOCK_SIZE_OUT uninit
              (after_producers (n_chunks in_size BLOCK_SIZE_IN)
                (n_chunks out_size BLOCK_SIZE_OUT) BLOCK_SIZE_IN BLOCK_SIZE_OUT input output
                weight bias uninit uninit2) = Except.ok s1 ∧
            s1.output_stream_partials.fifo[i * n_chunks in_size BLOCK_SIZE_IN + j]? = some t ∧
            t = vmm_unrolled_tile BLOCK_SIZE_IN BLOCK_SIZE_OUT x w uninit ∧
            (∀ k l, k < BLOCK_SIZE_OUT → l < BLOCK_SIZE_IN →
              w k l = weight (i * BLOCK_SIZE_OUT + k) (j * BLOCK_SIZE_IN + l)) ∧
            (∀ l, l < BLOCK_SIZE_IN →
              x l = input ((i * n_chunks in_size BLOCK_SIZE_IN + j)
                / n_chunks out_size BLOCK_SIZE_OUT * BLOCK_SIZE_IN + l))) := by
  generalize n_chunks in_size BLOCK_SIZE_IN = n_in at hnin ⊢
  generalize n_chunks out_size BLOCK_SIZE_OUT = n_out at hnout ⊢
  have hB := pairing_index_iff n_in n_out hnin hnout
  refine ⟨?_, hB, ⟨?_, ?_⟩, ?_⟩
  · intro input output weight bias uninit uninit2
    obtain ⟨s1, e1, h1⟩ := compute_stage_pairing n_in n_out BLOCK_SIZE_IN BLOCK_SIZE_OUT
      input output weight bias uninit uninit2
    refine ⟨s1, e1, ?_⟩
    intro i j hi hj
    obtain ⟨x, w, t, hx, hw, ht, et, hxv, hwv, _⟩ := h1 i j hi hj
    exact ⟨x, w, t, hx, hw, ht, et, hxv, hwv⟩
  · intro h
    by_contra hne
    have h2in : 1 < n_in := by omega
    have h2out : 1 < n_out := by omega
    obtain ⟨s1, e1, h1⟩ := h (fun x => if x = BLOCK_SIZE_IN then (1 : T) else 0) (fun _ => 0)
      (fun _ _ => 1) (fun _ => 0) (fun _ => 0) (fun _ _ => 0)
    obtain ⟨s2, e2, h2⟩ := compute_stage_pairing n_in n_out BLOCK_SIZE_IN BLOCK_SIZE_OUT
      (fun x => if x = BLOCK_SIZE_IN then (1 : T) else 0) (fun _ => 0)
      (fun _ _ => 1) (fun _ => 0) (fun _ => 0) (fun _ _ => 0)
    have es : s1 = s2 := Except.ok.inj (e1.symm.trans e2)
    obtain ⟨t, ht, hv⟩ := h1 0 1 (by omega) h2in
    obtain ⟨_, _, t2, _, _, ht2, _, _, _, hv2⟩ := h2 0 1 (by omega) h2in
    rw [es, ht2] at ht
    have et : t2 = t := Option.some.inj ht
    have v1 := hv 0 hBO
    have v2 := hv2 0 hBO
    rw [Nat.zero_mul, Nat.zero_add, Nat.div_eq_of_lt h2out] at v2
    have ind := vmm_row_indicator BLOCK_SIZE_IN hBI
      (fun k1 l => (fun (_ : Nat) (_ : Nat) => (1 : T)) (0 * BLOCK_SIZE_OUT + k1)
        (1 * BLOCK_SIZE_IN + l)) (fun _ _ => rfl) 0
    rw [ind.1] at v1
    rw [ind.2] at v2
    rw [et, v1] at v2
    exact one_ne_zero v2
  · intro h input output weight bias uninit uninit2
    obtain ⟨s1, e1, h1⟩ := compute_stage_pairing n_in n_out BLOCK_SIZE_IN BLOCK_SIZE_OUT
      input output weight bias uninit uninit2
    refine ⟨s1, e1, ?_⟩
    intro i j hi hj
    obtain ⟨_, _, t, _, _, ht, _, _, _, hv⟩ := h1 i j hi hj
    refine ⟨t, ht, ?_⟩
    intro k hk
    rw [hv k hk, hB.2 h i j hi hj]
  · intro hne
    have h2in : 1 < n_in := by omega
    have h2out : 1 < n_out := by omega
    refine ⟨0, 1, by omega, h2in, ?_, ?_⟩
    · rw [Nat.zero_mul, Nat.zero_add, Nat.div_eq_of_lt h2out]
      decide
    · intro input output weight bias uninit uninit2
      obtain ⟨s1, e1, h1⟩ := compute_stage_pairing n_in n_out BLOCK_SIZE_IN BLOCK_SIZE_OUT
        input output weight bias uninit uninit2
      obtain ⟨x, w, t, _, _, ht, et, hxv, hwv, _⟩ := h1 0 1 (by omega) h2in
      exact ⟨s1, x, w, t, e1, ht, et, hwv, hxv⟩

/-- C17 at `in_size = out_size = 2`, block sizes `1` (`n_chunks_in = n_chunks_out = 2`)
over the integers: neither count is `1`, so there is a position at which the compute
stage multiplies weight sub-block `(i, j)` with an input tile of index other than `j`. -/
theorem correct_pairing_iff_witness :
    (0 < 1 ∧ 1 ≤ n_chunks 2 1) ∧
    ¬ (n_chunks 2 1 = 1 ∨ n_chunks 2 1 = 1) ∧
    ∃ i j, i < n_chunks 2 1 ∧ j < n_chunks 2 1 ∧
      (i * n_chunks 2 1 + j) / n_chunks 2 1 ≠ j ∧
      ∀ (input output : Nat → Int) (weight : Nat → Nat → Int) (bias uninit : Nat → Int)
        (uninit2 : Nat → Nat → Int),
        ∃ s1 x w t,
          compute_stage (n_chunks 2 1) (n_chunks 2 1) 1 1 uninit
            (after_producers (n_chunks 2 1) (n_chunks 2 1) 1 1 input output
              weight bias uninit uninit2) = Except.ok s1 ∧
          s1.output_stream_partials.fifo[i * n_chunks 2 1 + j]? = some t ∧
          t = vmm_unrolled_tile 1 1 x w uninit ∧
          (∀ k l, k < 1 → l < 1 → w k l = weight (i * 1 + k) (j * 1 + l)) ∧
          (∀ l, l < 1 → x l = input ((i * n_chunks 2 1 + j) / n_chunks 2 1 * 1 + l)) :=
  ⟨by decide, by decide,
    (correct_pairing_iff 2 2 1 1 (by decide) (by decide) (by decide) (by decide)).2.2.2
      (by decide)⟩

/-! ## The instantiation of `linear_v2` -/

/-- No instantiation of `linear_v2` is accepted: one that passes the assertions of lines
112-115 is rejected for the declarations of lines 196 and 201. -/
theorem linear_v2_instantiation_ill_formed (in_size out_size BLOCK_SIZE_IN BLOCK_SIZE_OUT : Nat)
    (hBI : 0 < BLOCK_SIZE_IN) (hBO : 0 < BLOCK_SIZE_OUT)
    (hin : in_size % BLOCK_SIZE_IN = 0) (hout : out_size % BLOCK_SIZE_OUT = 0) :
    linear_v2_instantiation in_size out_size BLOCK_SIZE_IN BLOCK_SIZE_OUT
      = Except.error Fault.ill_formed := by
  obtain ⟨a1, a2⟩ := static_asserts_pass in_size out_size BLOCK_SIZE_IN BLOCK_SIZE_OUT
    hBI hBO hin hout
  unfold linear_v2_instantiation
  rw [a1, a2]
  rfl

end Linalg
